import Mathlib

/-!
# alfred-hn-top: a verification development over `src/main.go`

The Go program lists the top Hacker News story identifiers, fetches the first
`numStories` of them concurrently behind a counting semaphore, and renders the
stories as Alfred items.

Embedding conventions
* `int64` values are `Int`; where the source does arithmetic on them
  (`timeago`) the result is wrapped with `wrap64`, and `/` is the truncating Go
  division (`Int.tdiv`).
* `fmt.Sprintf` with `%v` on an integer is `fmtInt` (decimal, leading `-`),
  `%s` is the string itself, the pieces are joined with `++`.
* `time.Now().Unix()` is a parameter (`now`, or `clock idx` for the reading
  taken while rendering story `idx`).
* The HTTP and JSON collaborators are parameters: `Fetched α` is the outcome of
  `http.Get`, `ioutil.ReadAll` and `json.Unmarshal` in sequence.
* A Go panic is an explicit outcome.
* The goroutines of `topStories` are a step function on a state, driven by a
  schedule (a list of thread choices); a property of `topStories` is proved
  for every schedule.
-/

namespace HnTop

/-! ## Data model (main.go 14-34, 145-166) -/

/-- Constant `numStories` (main.go 14-16). -/
def numStories : Nat := 30

/-- A Go `error` value, as far as the program looks at it: it is only compared
with `nil` and passed on. -/
structure GoError where
  msg : String
deriving DecidableEq

/-- Struct `story` (main.go 22-30). `Kids` is a Go slice: `none` is the nil
slice (field absent in the JSON), `some l` a non-nil slice. -/
structure story where
  Id : Int
  By : String
  Title : String
  Url : String
  Score : Int
  Time : Int
  Kids : Option (List Int)
deriving DecidableEq

/-- The zero value of `story`, the content of every slot of
`make([]story, numStories)`. -/
def story.zero : story :=
  { Id := 0, By := "", Title := "", Url := "", Score := 0, Time := 0, Kids := none }

/-- Go `len` on a slice: the nil slice has length 0. -/
def goLen (kids : Option (List Int)) : Nat :=
  match kids with
  | none => 0
  | some l => l.length

/-- Struct `alfredItemMod` (main.go 162-166). -/
structure alfredItemMod where
  Valid : Bool
  Arg : String
  Subtitle : String
deriving DecidableEq

/-- Struct `alfredItemModSection` (main.go 157-160); a nil pointer is `none`. -/
structure alfredItemModSection where
  Alt : Option alfredItemMod
  Cmd : Option alfredItemMod
deriving DecidableEq

/-- Struct `alfredItem` (main.go 149-155). -/
structure alfredItem where
  Title : String
  Subtitle : String
  Arg : String
  Valid : Bool
  Mods : alfredItemModSection
deriving DecidableEq

/-- The zero value of `alfredItem`, the content of every slot of
`make([]alfredItem, numStories)`. -/
def alfredItem.zero : alfredItem :=
  { Title := "", Subtitle := "", Arg := "", Valid := false,
    Mods := { Alt := none, Cmd := none } }

/-- Struct `alfredOutput` (main.go 145-147). -/
structure alfredOutput where
  Items : List alfredItem
deriving DecidableEq

/-! ## Formatting helpers and `timeago` (main.go 128-143) -/

/-- Wrap in two-complement arithmetic of an integer into the `int64` range. -/
def wrap64 (x : Int) : Int :=
  (x + 9223372036854775808) % 18446744073709551616 - 9223372036854775808

/-- The verb `%v` of `fmt.Sprintf` on an integer: decimal digits, `-` in front
of a negative number. -/
def fmtInt (x : Int) : String := toString x

/-- Constant `int64(time.Second)`: nanoseconds in a second. -/
def second : Int := 1000000000

/-- Constant `int64(time.Hour)`: nanoseconds in an hour. -/
def hour : Int := 3600000000000

/-- Function `timeago` (main.go 128-143); `now` is the value of
`time.Now().Unix()` read on line 129. -/
def timeago (now ts : Int) : String :=
  let delta := wrap64 (wrap64 (now - ts) * second)
  if delta < hour then
    fmtInt (delta.tdiv 60) ++ " minutes ago"
  else if delta < hour * 24 then
    fmtInt (delta.tdiv (3600 * second)) ++ " hours ago"
  else
    let dd := delta.tdiv (86400 * second)
    if dd = 1 then
      "1 day ago"
    else
      fmtInt dd ++ " days ago"

/-! ## `hnHotFetcher.run`, `main`, `emitalfredoutput` (main.go 93-126, 168-184) -/

/-- Interface `hnDataService` (main.go 18-20), as `run` sees it: the pair that
its one call of `topStories()` returns. -/
structure hnDataService where
  topStories : List story × Option GoError

/-- The text bound to `commentsFmt` for one story (main.go 104-109). -/
def commentsFmt (s : story) : String :=
  if goLen s.Kids = 1 then
    "1 comment"
  else
    fmtInt (goLen s.Kids) ++ " comments"

/-- The composite literal stored in `ao.Items[idx]` (main.go 110-123) for story
`s`, with `now` the clock reading of its `timeago` call. -/
def renderItem (now : Int) (s : story) : alfredItem :=
  { Title := s.Title,
    Subtitle := fmtInt s.Score ++ " points by " ++ s.By ++ " " ++ timeago now s.Time
      ++ " | " ++ commentsFmt s,
    Arg := s.Url,
    Valid := true,
    Mods :=
      { Alt := some
          { Valid := true,
            Arg := "https://news.ycombinator.com/item?id=" ++ fmtInt s.Id,
            Subtitle := "open comments" },
        Cmd := none } }

/-- What a call of `run` ends in: it returns `(ao, err)`, or the write
`ao.Items[idx] = ...` panics with index out of range. -/
inductive RunResult where
  | returned (ao : alfredOutput) (err : Option GoError)
  | indexPanic (idx : Nat) (len : Nat)
deriving DecidableEq

/-- The loop `for idx, s := range stories` of `run` (main.go 103-124), from
index `idx` on, over the stories still to visit; `clock i` is the clock reading
of the `timeago` call of iteration `i`. The slice write is bounds-checked as
in Go. -/
def runLoop (clock : Nat → Int) : Nat → List story → List alfredItem → RunResult
  | _, [], items => .returned { Items := items } none
  | idx, s :: rest, items =>
    if idx < items.length then
      runLoop clock (idx + 1) rest (items.set idx (renderItem (clock idx) s))
    else
      .indexPanic idx items.length

/-- Struct `hnHotFetcher` (main.go 93-95). -/
structure hnHotFetcher where
  ds : hnDataService

/-- Method `hnHotFetcher.run` (main.go 97-126). -/
def hnHotFetcher.run (h : hnHotFetcher) (clock : Nat → Int) : RunResult :=
  let ao : alfredOutput := { Items := List.replicate numStories alfredItem.zero }
  match h.ds.topStories with
  | (_, some err) => .returned ao (some err)
  | (stories, none) => runLoop clock 0 stories ao.Items

/-- How the process ends: `emitalfredoutput` printed the JSON encoding of an
`alfredOutput` on standard output, or a panic ended the process before any
output. -/
inductive ProcResult where
  | emitted (o : alfredOutput)
  | panicked
deriving DecidableEq

/-- Function `emitalfredoutput` (main.go 178-184): `json.Marshal` cannot fail on
an `alfredOutput`, so the value is printed. -/
def emitalfredoutput (o : alfredOutput) : ProcResult := .emitted o

/-- Function `main` (main.go 168-176) from the data service on (`newHNDS()` in
the source): `panic(err)` on an error of `run`, else `emitalfredoutput`. A
panic inside `run` ends the process as well. -/
def main (ds : hnDataService) (clock : Nat → Int) : ProcResult :=
  match hnHotFetcher.run { ds := ds } clock with
  | .returned _ (some _) => .panicked
  | .returned ao none => emitalfredoutput ao
  | .indexPanic _ _ => .panicked

/-! ## `hndsimpl.topStories` and `newHNDS` (main.go 32-91)

The ranking request runs in the calling goroutine. The loop of lines 75-82
then starts one goroutine per rank; their interleaving with the caller is a
step function: a schedule names, step by step, the goroutine that moves
(`0` the caller, `k + 1` the goroutine started for rank `k`), and a step that
cannot move (blocked channel operation, blocked `wg.Wait()`, goroutine over,
process dead) is `none`. -/

/-- Outcome of one HTTP exchange as the source checks it: `http.Get` failed
(main.go 40, 59), `ioutil.ReadAll` failed (45, 64), `json.Unmarshal` failed
(50, 69), or all three passed and the body decoded into `val`. -/
inductive Fetched (α : Type) where
  | getFailed (err : GoError)
  | readFailed (err : GoError)
  | decodeFailed (err : GoError)
  | ok (val : α)
deriving DecidableEq

/-- Struct `hndsimpl` (main.go 32-34): `cap` is the capacity of the buffered
channel `itemfetchsem`. -/
structure hndsimpl where
  cap : Nat
deriving DecidableEq

/-- Function `newHNDS` (main.go 87-91); `numCPU` is the value of
`runtime.NumCPU()`. -/
def newHNDS (numCPU : Nat) : hndsimpl := { cap := numCPU }

/-- Where the calling goroutine stands inside `topStories`. -/
inductive CtlPc where
  /-- Head of the `range` loop at index `idx`, up to the send of line 79. -/
  | loop (idx : Nat)
  /-- The send of line 79 went through; next `wg.Add(1)` and `go fetch(idx, id)`. -/
  | launch (idx : Nat) (id : Int)
  /-- At `wg.Wait()` (line 83). -/
  | wait
  /-- Line 84 ran: `topStories` has returned `(stories, nil)`. -/
  | ret
deriving DecidableEq

/-- Where a goroutine running `fetch(idx, id)` stands. -/
inductive TaskPc where
  /-- Body of the closure, lines 55-72: the request, the decoding and the
  write `stories[idx] = stry`, or one of the three `panic(err)`. -/
  | fetch
  /-- Next: the deferred `wg.Done()` of line 57. -/
  | deferDone
  /-- Next: the deferred receive `<-h.itemfetchsem` of line 56. -/
  | deferRecv
  /-- Every deferred call has run: the goroutine is over, and if it is panicking
  the runtime terminates the program next. -/
  | exited
deriving DecidableEq

/-- A goroutine started by `go fetch(idx, id)`. -/
structure Task where
  idx : Nat
  id : Int
  pc : TaskPc
  panicking : Bool
deriving DecidableEq

/-- State of one call of `topStories` after the ranking was decoded. `sem` is
the number of values buffered in `itemfetchsem`, `wg` the counter of the
`sync.WaitGroup`, `requests` the detail requests issued so far, as
`(idx, id)`, in the order issued, and `crashed` says that a panic has
terminated the process. -/
structure State where
  ctl : CtlPc
  sem : Nat
  wg : Nat
  tasks : List Task
  stories : List story
  requests : List (Nat × Int)
  crashed : Bool
deriving DecidableEq

/-- State at line 53: `stories` as made on line 38, an empty channel, a fresh
`WaitGroup`, no goroutine. -/
def State.init : State :=
  { ctl := .loop 0, sem := 0, wg := 0, tasks := [],
    stories := List.replicate numStories story.zero, requests := [], crashed := false }

/-- One step of the calling goroutine (main.go 75-84). The send on
`itemfetchsem` blocks while the buffer is full, `wg.Wait()` blocks while the
counter is not zero. -/
def stepCtl (h : hndsimpl) (topIDs : List Int) (s : State) : Option State :=
  match s.ctl with
  | .loop idx =>
    match topIDs[idx]? with
    | none => some { s with ctl := .wait }
    | some id =>
      if numStories ≤ idx then
        some { s with ctl := .wait }
      else if s.sem < h.cap then
        some { s with sem := s.sem + 1, ctl := .launch idx id }
      else
        none
  | .launch idx id =>
    some { s with
      wg := s.wg + 1,
      tasks := s.tasks ++ [{ idx := idx, id := id, pc := .fetch, panicking := false }],
      ctl := .loop (idx + 1) }
  | .wait => if s.wg = 0 then some { s with ctl := .ret } else none
  | .ret => none

/-- One step of the goroutine started for rank `k` (main.go 54-73). A failed
exchange panics; the deferred calls then run in reverse order of their
`defer` statements (`wg.Done()`, then the receive), and only after them does
the panic terminate the process. `wg.Done()` on a zero counter and a write
outside the slice panic as in Go. -/
def stepTask (detail : Int → Fetched story) (k : Nat) (s : State) : Option State :=
  match s.tasks[k]? with
  | none => none
  | some t =>
    match t.pc with
    | .fetch =>
      let reqs := s.requests ++ [(t.idx, t.id)]
      match detail t.id with
      | .ok stry =>
        if t.idx < s.stories.length then
          some { s with
            requests := reqs,
            stories := s.stories.set t.idx stry,
            tasks := s.tasks.set k { t with pc := .deferDone } }
        else
          some { s with
            requests := reqs,
            tasks := s.tasks.set k { t with pc := .deferDone, panicking := true } }
      | _ =>
        some { s with
          requests := reqs,
          tasks := s.tasks.set k { t with pc := .deferDone, panicking := true } }
    | .deferDone =>
      if 0 < s.wg then
        some { s with wg := s.wg - 1, tasks := s.tasks.set k { t with pc := .deferRecv } }
      else
        some { s with tasks := s.tasks.set k { t with pc := .deferRecv, panicking := true } }
    | .deferRecv =>
      if 0 < s.sem then
        some { s with sem := s.sem - 1, tasks := s.tasks.set k { t with pc := .exited } }
      else
        none
    | .exited => if t.panicking then some { s with crashed := true } else none

/-- One scheduling step: choice `0` moves the caller, choice `k + 1` the
goroutine of rank `k`. Nothing moves once the process is dead. -/
def step (h : hndsimpl) (topIDs : List Int) (detail : Int → Fetched story)
    (s : State) (c : Nat) : Option State :=
  if s.crashed then
    none
  else
    match c with
    | 0 => stepCtl h topIDs s
    | k + 1 => stepTask detail k s

/-- Run a schedule from a state; `none` when some choice could not move. -/
def exec (h : hndsimpl) (topIDs : List Int) (detail : Int → Fetched story) :
    State → List Nat → Option State
  | s, [] => some s
  | s, c :: cs =>
    match step h topIDs detail s c with
    | none => none
    | some s1 => exec h topIDs detail s1 cs

/-- What the caller of `topStories` gets: the call returned `(stories, err)`,
or the process died inside it. -/
inductive TSOutcome where
  | returned (stories : List story) (err : Option GoError)
  | crashed
deriving DecidableEq

/-- Outcome of a call together with the detail requests it issued. -/
structure TSResult where
  outcome : TSOutcome
  requests : List (Nat × Int)
deriving DecidableEq

/-- What a state shows to the caller: the return of line 84 once it ran, else
the death of the process, else nothing yet. -/
def State.observe (s : State) : Option TSResult :=
  if s.ctl = .ret then
    some { outcome := .returned s.stories none, requests := s.requests }
  else if s.crashed then
    some { outcome := .crashed, requests := s.requests }
  else
    none

/-- Method `hndsimpl.topStories` (main.go 36-85) under a schedule: `ranking` is
the exchange with the ranking endpoint (lines 39-52), `detail id` the exchange
with the item endpoint for `id` (lines 58-71). The result is `none` while the
call has not ended under the schedule, or when the schedule cannot be
followed. -/
def hndsimpl.topStories (h : hndsimpl) (ranking : Fetched (List Int))
    (detail : Int → Fetched story) (sched : List Nat) : Option TSResult :=
  let stories := List.replicate numStories story.zero
  match ranking with
  | .getFailed err => some { outcome := .returned stories (some err), requests := [] }
  | .readFailed err => some { outcome := .returned stories (some err), requests := [] }
  | .decodeFailed err => some { outcome := .returned stories (some err), requests := [] }
  | .ok topIDs =>
    match exec h topIDs detail State.init sched with
    | none => none
    | some s => s.observe

/-- The schedule that runs the goroutines one after the other: for each of
the `n` ranks the caller sends and launches, then the goroutine runs to its
end; at last the caller leaves the loop and passes `wg.Wait()`. -/
def seqSchedule (n : Nat) : List Nat :=
  (List.range n).flatMap (fun k => [0, 0, k + 1, k + 1, k + 1]) ++ [0, 0]

/-- A detail source that answers every identifier with a story carrying it. -/
def echoDetail (id : Int) : Fetched story := .ok { story.zero with Id := id }

/-- The ranking list `[101, 102, ..., 140]`. -/
def sampleIDs : List Int := (List.range 40).map (fun k => (101 : Int) + k)

/-! ## Accounting over the goroutines -/

/-- Units of `itemfetchsem` a goroutine still holds: one until its deferred
receive has run. -/
def semUnits : TaskPc → Nat
  | .exited => 0
  | _ => 1

/-- Units of the `WaitGroup` counter a goroutine still holds: one until its
deferred `wg.Done()` has run. -/
def wgUnits : TaskPc → Nat
  | .fetch => 1
  | .deferDone => 1
  | _ => 0

/-- Detail requests a goroutine has issued: one once it is past the body. -/
def reqUnits : TaskPc → Nat
  | .fetch => 0
  | _ => 1

/-- Steps a goroutine has left before it is over. -/
def stepsLeft : TaskPc → Nat
  | .fetch => 3
  | .deferDone => 2
  | .deferRecv => 1
  | .exited => 0

/-- Sum of a per-goroutine quantity over the started goroutines. -/
def total (f : TaskPc → Nat) (l : List Task) : Nat :=
  (l.map (fun t => f t.pc)).sum

/-- Detail fetches launched and not yet finished: goroutines started by
`go fetch(...)` whose last action, the deferred receive, has not run. -/
def State.inflight (s : State) : Nat := total semUnits s.tasks

/-- Goroutines that are over: their deferred receive has run. -/
def State.finished (s : State) : Nat :=
  (s.tasks.filter (fun t => decide (t.pc = .exited))).length

/-- Units the caller has acquired for a goroutine it has yet to start: one
between the send of line 79 and `go fetch` of line 81. -/
def pendingLaunch : CtlPc → Nat
  | .launch _ _ => 1
  | _ => 0

/-- Steps the caller has left when `n` ranks are to be fetched, counting the
three steps of every goroutine it has yet to start. -/
def ctlLeft (n : Nat) : CtlPc → Nat
  | .loop i => 5 * (n - i) + 2
  | .launch i _ => 5 * (n - i) + 1
  | .wait => 1
  | .ret => 0

/-- Number of ranks `topStories` fetches: `min(numStories, len(topIDs))`. -/
def fetchCount (topIDs : List Int) : Nat := min numStories topIDs.length

/-- Steps left in a state: a bound on the length of every schedule from it. -/
def State.measure (topIDs : List Int) (s : State) : Nat :=
  (if s.crashed then 0 else 1) + ctlLeft (fetchCount topIDs) s.ctl + total stepsLeft s.tasks

/-- The story slot `j` must hold, given the goroutine of rank `j` if it was
started: the decoded story once its body has run without panic, else the zero
value. -/
def slotOf (detail : Int → Fetched story) : Option Task → story
  | none => story.zero
  | some t =>
    match t.pc with
    | .fetch => story.zero
    | _ =>
      match detail t.id with
      | .ok stry => stry
      | _ => story.zero

/-- The transitions of `step`, one constructor per branch of `stepCtl` and
`stepTask`; `step_trans` shows that every step of the step function is one of
them. -/
inductive Trans (h : hndsimpl) (topIDs : List Int) (detail : Int → Fetched story) :
    State → State → Prop where
  | loopExit (s : State) (i : Nat) (hc : s.ctl = .loop i)
      (hx : topIDs[i]? = none ∨ numStories ≤ i) :
      Trans h topIDs detail s { s with ctl := .wait }
  | acquire (s : State) (i : Nat) (id : Int) (hc : s.ctl = .loop i)
      (hid : topIDs[i]? = some id) (hi : i < numStories) (hsem : s.sem < h.cap) :
      Trans h topIDs detail s { s with sem := s.sem + 1, ctl := .launch i id }
  | launch (s : State) (i : Nat) (id : Int) (hc : s.ctl = .launch i id) :
      Trans h topIDs detail s
        { s with
          wg := s.wg + 1,
          tasks := s.tasks ++ [{ idx := i, id := id, pc := .fetch, panicking := false }],
          ctl := .loop (i + 1) }
  | waitDone (s : State) (hc : s.ctl = .wait) (hwg : s.wg = 0) :
      Trans h topIDs detail s { s with ctl := .ret }
  | fetchOk (s : State) (k : Nat) (t : Task) (stry : story) (ht : s.tasks[k]? = some t)
      (hpc : t.pc = .fetch) (hd : detail t.id = .ok stry) (hidx : t.idx < s.stories.length) :
      Trans h topIDs detail s
        { s with
          requests := s.requests ++ [(t.idx, t.id)],
          stories := s.stories.set t.idx stry,
          tasks := s.tasks.set k { t with pc := .deferDone } }
  | fetchPanic (s : State) (k : Nat) (t : Task) (ht : s.tasks[k]? = some t)
      (hpc : t.pc = .fetch)
      (hd : (∀ stry, detail t.id ≠ .ok stry) ∨ ¬ t.idx < s.stories.length) :
      Trans h topIDs detail s
        { s with
          requests := s.requests ++ [(t.idx, t.id)],
          tasks := s.tasks.set k { t with pc := .deferDone, panicking := true } }
  | done (s : State) (k : Nat) (t : Task) (ht : s.tasks[k]? = some t)
      (hpc : t.pc = .deferDone) (hwg : 0 < s.wg) :
      Trans h topIDs detail s
        { s with wg := s.wg - 1, tasks := s.tasks.set k { t with pc := .deferRecv } }
  | donePanic (s : State) (k : Nat) (t : Task) (ht : s.tasks[k]? = some t)
      (hpc : t.pc = .deferDone) (hwg : ¬ 0 < s.wg) :
      Trans h topIDs detail s
        { s with tasks := s.tasks.set k { t with pc := .deferRecv, panicking := true } }
  | recv (s : State) (k : Nat) (t : Task) (ht : s.tasks[k]? = some t)
      (hpc : t.pc = .deferRecv) (hsem : 0 < s.sem) :
      Trans h topIDs detail s
        { s with sem := s.sem - 1, tasks := s.tasks.set k { t with pc := .exited } }
  | crash (s : State) (k : Nat) (t : Task) (ht : s.tasks[k]? = some t)
      (hpc : t.pc = .exited) (hp : t.panicking = true) :
      Trans h topIDs detail s { s with crashed := true }

/-- What the position of the caller says about the goroutines started so far. -/
def ctlOk (topIDs : List Int) (s : State) : Prop :=
  match s.ctl with
  | .loop i => s.tasks.length = i ∧ i ≤ numStories ∧ i ≤ topIDs.length
  | .launch i id => s.tasks.length = i ∧ topIDs[i]? = some id ∧ i < numStories
  | .wait => s.tasks.length = fetchCount topIDs
  | .ret => s.tasks.length = fetchCount topIDs ∧ s.wg = 0

/-- The invariant of `topStories`: it holds in `State.init` and every step
keeps it. -/
structure Inv (h : hndsimpl) (topIDs : List Int) (detail : Int → Fetched story)
    (s : State) : Prop where
  storiesLen : s.stories.length = numStories
  taskWf : ∀ (j : Nat) (t : Task), s.tasks[j]? = some t → t.idx = j ∧ topIDs[j]? = some t.id ∧ j < numStories
  ctl : ctlOk topIDs s
  semAcct : s.sem = total semUnits s.tasks + pendingLaunch s.ctl
  semCap : s.sem ≤ h.cap
  wgAcct : s.wg = total wgUnits s.tasks
  slots : ∀ j, j < numStories → s.stories[j]? = some (slotOf detail s.tasks[j]?)
  panics : ∀ (j : Nat) (t : Task), s.tasks[j]? = some t → t.panicking = true →
    t.pc ≠ .fetch ∧ ∀ stry, detail t.id ≠ .ok stry
  crash : s.crashed = true →
    ∃ (j : Nat) (t : Task), s.tasks[j]? = some t ∧ t.panicking = true ∧ t.pc = .exited
  reqLen : s.requests.length = total reqUnits s.tasks
  reqMem : ∀ (j : Nat) (t : Task), s.tasks[j]? = some t → t.pc ≠ .fetch → (j, t.id) ∈ s.requests

/-! ## Sample inputs -/

/-- A schedule for three ranks and a semaphore of capacity two in which the
goroutine of rank 1 runs to its end before the goroutine of rank 0 starts its
request. -/
def swapSchedule : List Nat := [0, 0, 0, 0, 2, 2, 2, 1, 1, 1, 0, 0, 3, 3, 3, 0, 0]

/-- The schedule `swapSchedule` continued over all `numStories` ranks: ranks 3
and up run one after the other. -/
def swapScheduleFull : List Nat :=
  [0, 0, 0, 0, 2, 2, 2, 1, 1, 1, 0, 0, 3, 3, 3]
    ++ (List.range (numStories - 3)).flatMap (fun k => [0, 0, k + 4, k + 4, k + 4]) ++ [0, 0]

/-- A detail source whose exchange for identifier 7 fails at transport and
that answers every other identifier. -/
def failingDetail (id : Int) : Fetched story :=
  if id = 7 then .getFailed { msg := "dial tcp: timeout" } else echoDetail id

/-- Three stories with no, one and five kids. -/
def sampleStories : List story :=
  [ { Id := 101, By := "ann", Title := "First", Url := "https://a.example/1", Score := 5,
      Time := 1700000000, Kids := none },
    { Id := 102, By := "bob", Title := "Second", Url := "https://b.example/2", Score := 10,
      Time := 1700002800, Kids := some [7] },
    { Id := 103, By := "cy", Title := "Third", Url := "https://c.example/3", Score := 1,
      Time := 1699740800, Kids := some [1, 2, 3, 4, 5] } ]

/-- A data service that succeeds with `sampleStories`. -/
def sampleService : hnDataService := { topStories := (sampleStories, none) }

/-- A clock that reads 1700010000 at every call. -/
def sampleClock : Nat → Int := fun _ => 1700010000

/-- The output of `run` on `sampleService`, the empty output if it has none. -/
def sampleOutput : alfredOutput :=
  match hnHotFetcher.run { ds := sampleService } sampleClock with
  | .returned ao _ => ao
  | .indexPanic _ _ => { Items := [] }

/-- A schedule for `failingDetail` on the ranking 7, 8, 9 with capacity two:
the caller sends and launches twice, then the goroutine of rank 0 fails its
request, panics and runs its deferred `wg.Done()`; its deferred receive is
next. -/
def failSchedule : List Nat := [0, 0, 0, 0, 1, 1]

/-- The state `failSchedule` reaches, the initial state if it reaches none. -/
def failState : State :=
  (exec (newHNDS 2) [7, 8, 9] failingDetail State.init failSchedule).getD State.init

/-! ## Lemmas on the accounting -/

theorem total_nil (f : TaskPc → Nat) : total f [] = 0 := rfl

theorem total_cons (f : TaskPc → Nat) (t : Task) (l : List Task) :
    total f (t :: l) = f t.pc + total f l := by
  simp [total]

theorem total_append_one (f : TaskPc → Nat) (l : List Task) (t : Task) :
    total f (l ++ [t]) = total f l + f t.pc := by
  simp [total]

theorem total_set (f : TaskPc → Nat) (l : List Task) (k : Nat) (t u : Task)
    (ht : l[k]? = some t) : total f (l.set k u) + f t.pc = total f l + f u.pc := by
  induction l generalizing k with
  | nil => simp at ht
  | cons a l ih =>
    cases k with
    | zero =>
      simp at ht
      subst ht
      simp [total_cons]
      omega
    | succ k =>
      simp at ht
      have := ih k ht
      simp [total_cons]
      omega

theorem total_pos (f : TaskPc → Nat) (l : List Task) (hp : 0 < total f l) :
    ∃ (k : Nat) (t : Task), l[k]? = some t ∧ 0 < f t.pc := by
  induction l with
  | nil => simp [total_nil] at hp
  | cons a l ih =>
    rw [total_cons] at hp
    by_cases ha : 0 < f a.pc
    · exact ⟨0, a, by simp, ha⟩
    · have hl : 0 < total f l := by omega
      obtain ⟨k, t, hk, ht⟩ := ih hl
      exact ⟨k + 1, t, by simpa using hk, ht⟩

theorem total_zero (f : TaskPc → Nat) (l : List Task) (hz : total f l = 0)
    (k : Nat) (t : Task) (ht : l[k]? = some t) : f t.pc = 0 := by
  induction l generalizing k with
  | nil => simp at ht
  | cons a l ih =>
    rw [total_cons] at hz
    cases k with
    | zero =>
      simp at ht
      subst ht
      omega
    | succ k =>
      simp at ht
      exact ih (by omega) k ht

theorem total_semUnits_add_exited (l : List Task) :
    total semUnits l + (l.filter (fun t => decide (t.pc = .exited))).length = l.length := by
  induction l with
  | nil => simp [total_nil]
  | cons a l ih =>
    rw [total_cons, List.filter_cons]
    cases hpc : a.pc <;> simp [semUnits] <;> omega

theorem inflight_add_finished (s : State) : s.inflight + s.finished = s.tasks.length :=
  total_semUnits_add_exited s.tasks

/-! ## The step function and its transitions -/

theorem step_trans (h : hndsimpl) (topIDs : List Int) (detail : Int → Fetched story)
    (s s1 : State) (c : Nat) (hs : step h topIDs detail s c = some s1) :
    s.crashed = false ∧ Trans h topIDs detail s s1 := by
  unfold step at hs
  split at hs
  · simp at hs
  · rename_i hcr
    refine ⟨by simpa using hcr, ?_⟩
    cases c with
    | zero =>
      simp only [stepCtl] at hs
      split at hs
      · rename_i i hc
        split at hs
        · rename_i hnone
          simp at hs; subst hs
          exact Trans.loopExit s i hc (Or.inl hnone)
        · rename_i id hid
          split at hs
          · rename_i hge
            simp at hs; subst hs
            exact Trans.loopExit s i hc (Or.inr hge)
          · rename_i hlt
            split at hs
            · rename_i hsem
              simp at hs; subst hs
              exact Trans.acquire s i id hc hid (by omega) hsem
            · simp at hs
      · rename_i i id hc
        simp at hs; subst hs
        exact Trans.launch s i id hc
      · rename_i hc
        split at hs
        · rename_i hwg
          simp at hs; subst hs
          exact Trans.waitDone s hc hwg
        · simp at hs
      · simp at hs
    | succ k =>
      simp only [stepTask] at hs
      split at hs
      · simp at hs
      · rename_i t ht
        split at hs
        · rename_i hpc
          split at hs
          · rename_i stry hd
            split at hs
            · rename_i hidx
              simp at hs; subst hs
              exact Trans.fetchOk s k t stry ht hpc hd hidx
            · rename_i hidx
              simp at hs; subst hs
              exact Trans.fetchPanic s k t ht hpc (Or.inr hidx)
          · rename_i hd
            simp at hs; subst hs
            exact Trans.fetchPanic s k t ht hpc (Or.inl (fun stry he => hd stry he))
        · rename_i hpc
          split at hs
          · rename_i hwg
            simp at hs; subst hs
            exact Trans.done s k t ht hpc hwg
          · rename_i hwg
            simp at hs; subst hs
            exact Trans.donePanic s k t ht hpc hwg
        · rename_i hpc
          split at hs
          · rename_i hsem
            simp at hs; subst hs
            exact Trans.recv s k t ht hpc hsem
          · simp at hs
        · rename_i hpc
          split at hs
          · rename_i hp
            simp at hs; subst hs
            exact Trans.crash s k t ht hpc hp
          · simp at hs


theorem lookup_lt {α : Type} (l : List α) (k : Nat) (t : α) (ht : l[k]? = some t) :
    k < l.length := by
  rcases Nat.lt_or_ge k l.length with hlt | hge
  · exact hlt
  · rw [List.getElem?_eq_none hge] at ht
    simp at ht

theorem set_self {α : Type} (l : List α) (k : Nat) (t u : α) (ht : l[k]? = some t) :
    (l.set k u)[k]? = some u := by
  have := lookup_lt l k t ht
  simp [List.getElem?_set, this]

theorem set_other {α : Type} (l : List α) (k j : Nat) (u : α) (hjk : j ≠ k) :
    (l.set k u)[j]? = l[j]? := by
  have : ¬ k = j := fun h => hjk h.symm
  simp [List.getElem?_set, this]

theorem set_forall (P : Nat → Task → Prop) (l : List Task) (k : Nat) (t u : Task)
    (ht : l[k]? = some t)
    (hall : ∀ (j : Nat) (v : Task), l[j]? = some v → j ≠ k → P j v) (hu : P k u) :
    ∀ (j : Nat) (v : Task), (l.set k u)[j]? = some v → P j v := by
  intro j v hj
  by_cases hjk : j = k
  · subst hjk
    rw [set_self l j t u ht] at hj
    simp at hj
    subst hj
    exact hu
  · rw [set_other l k j u hjk] at hj
    exact hall j v hj hjk

theorem append_forall (P : Nat → Task → Prop) (l : List Task) (u : Task)
    (hall : ∀ (j : Nat) (v : Task), l[j]? = some v → P j v) (hu : P l.length u) :
    ∀ (j : Nat) (v : Task), (l ++ [u])[j]? = some v → P j v := by
  intro j v hj
  rcases Nat.lt_trichotomy j l.length with hlt | heq | hgt
  · rw [List.getElem?_append_left hlt] at hj
    exact hall j v hj
  · subst heq
    simp at hj
    subst hj
    exact hu
  · have : (l ++ [u])[j]? = none := by
      apply List.getElem?_eq_none
      simp
      omega
    rw [this] at hj
    simp at hj

theorem slotOf_pc (detail : Int → Fetched story) (t u : Task) (hid : u.id = t.id)
    (ht : t.pc ≠ .fetch) (hu : u.pc ≠ .fetch) :
    slotOf detail (some u) = slotOf detail (some t) := by
  cases hpt : t.pc <;> cases hpu : u.pc <;> simp_all [slotOf]


/-! ## The invariant -/

theorem inv_init (h : hndsimpl) (topIDs : List Int) (detail : Int → Fetched story) :
    Inv h topIDs detail State.init where
  storiesLen := by simp [State.init]
  taskWf := by intro j t ht; simp [State.init] at ht
  ctl := by simp [ctlOk, State.init]
  semAcct := by simp [State.init, total_nil, pendingLaunch]
  semCap := by simp [State.init]
  wgAcct := by simp [State.init, total_nil]
  slots := by
    intro j hj
    simp [State.init, slotOf, hj]
  panics := by intro j t ht; simp [State.init] at ht
  crash := by simp [State.init]
  reqLen := by simp [State.init, total_nil]
  reqMem := by intro j t ht; simp [State.init] at ht

theorem ctlOk_of (topIDs : List Int) (s s1 : State) (hc : s1.ctl = s.ctl)
    (hl : s1.tasks.length = s.tasks.length) (hw : s1.wg ≤ s.wg) (hok : ctlOk topIDs s) :
    ctlOk topIDs s1 := by
  unfold ctlOk at hok ⊢
  rw [hc, hl]
  cases hctl : s.ctl with
  | loop i => simpa [hctl] using hok
  | launch i id => simpa [hctl] using hok
  | wait => simpa [hctl] using hok
  | ret =>
    simp only [hctl] at hok ⊢
    exact ⟨hok.1, by omega⟩

theorem trans_inv (h : hndsimpl) (topIDs : List Int) (detail : Int → Fetched story)
    (s s1 : State) (hinv : Inv h topIDs detail s) (hcr : s.crashed = false)
    (htr : Trans h topIDs detail s s1) : Inv h topIDs detail s1 := by
  have hctl := hinv.ctl
  have hsem := hinv.semAcct
  cases htr with
  | loopExit i hc hx =>
    simp only [ctlOk, hc] at hctl
    simp only [hc, pendingLaunch] at hsem
    exact
      { storiesLen := hinv.storiesLen
        taskWf := hinv.taskWf
        ctl := by
          simp only [ctlOk, fetchCount]
          rcases hx with hx | hx
          · have : topIDs.length ≤ i := by
              rcases Nat.lt_or_ge i topIDs.length with hlt | hge
              · simp [List.getElem?_eq_getElem hlt] at hx
              · exact hge
            omega
          · omega
        semAcct := by simpa [pendingLaunch] using hsem
        semCap := hinv.semCap
        wgAcct := hinv.wgAcct
        slots := hinv.slots
        panics := hinv.panics
        crash := hinv.crash
        reqLen := hinv.reqLen
        reqMem := hinv.reqMem }
  | acquire i id hc hid hi hsemlt =>
    simp only [ctlOk, hc] at hctl
    simp only [hc, pendingLaunch] at hsem
    exact
      { storiesLen := hinv.storiesLen
        taskWf := hinv.taskWf
        ctl := by
          simp only [ctlOk]
          exact ⟨hctl.1, hid, hi⟩
        semAcct := by
          simp only [pendingLaunch]
          omega
        semCap := by
          show s.sem + 1 ≤ h.cap
          omega
        wgAcct := hinv.wgAcct
        slots := hinv.slots
        panics := hinv.panics
        crash := hinv.crash
        reqLen := hinv.reqLen
        reqMem := hinv.reqMem }
  | launch i id hc =>
    simp only [ctlOk, hc] at hctl
    simp only [hc, pendingLaunch] at hsem
    obtain ⟨hlen, hid, hi⟩ := hctl
    have hilt : i < topIDs.length := lookup_lt topIDs i id hid
    exact
      { storiesLen := hinv.storiesLen
        taskWf := by
          apply append_forall (fun j t => t.idx = j ∧ topIDs[j]? = some t.id ∧ j < numStories)
          · exact hinv.taskWf
          · simp only [hlen]
            exact ⟨trivial, hid, hi⟩
        ctl := by
          simp only [ctlOk, List.length_append, List.length_singleton]
          omega
        semAcct := by
          simp only [pendingLaunch, total_append_one, semUnits]
          omega
        semCap := hinv.semCap
        wgAcct := by
          simp only [total_append_one, wgUnits]
          have := hinv.wgAcct
          omega
        slots := by
          intro j hj
          have hs := hinv.slots j hj
          rcases Nat.lt_trichotomy j s.tasks.length with hlt | heq | hgt
          · simpa [List.getElem?_append_left hlt] using hs
          · subst heq
            simpa [slotOf] using hs
          · have h1 : (s.tasks ++ [{ idx := i, id := id, pc := .fetch, panicking := false }])[j]?
                = none := by
              apply List.getElem?_eq_none
              simp
              omega
            have h2 : s.tasks[j]? = none := List.getElem?_eq_none (by omega)
            simp only [h1]
            simpa [h2] using hs
        panics := by
          apply append_forall
            (fun _ t => t.panicking = true → t.pc ≠ .fetch ∧ ∀ stry, detail t.id ≠ .ok stry)
          · exact hinv.panics
          · simp
        crash := by
          intro hc1
          exact absurd hc1 (by simp [hcr])
        reqLen := by
          simp only [total_append_one, reqUnits]
          exact hinv.reqLen
        reqMem := by
          apply append_forall (fun j t => t.pc ≠ .fetch → (j, t.id) ∈ s.requests)
          · exact hinv.reqMem
          · simp }
  | waitDone hc hwg =>
    simp only [ctlOk, hc] at hctl
    simp only [hc, pendingLaunch] at hsem
    exact
      { storiesLen := hinv.storiesLen
        taskWf := hinv.taskWf
        ctl := by
          simp only [ctlOk]
          exact ⟨hctl, hwg⟩
        semAcct := by simpa [pendingLaunch] using hsem
        semCap := hinv.semCap
        wgAcct := hinv.wgAcct
        slots := hinv.slots
        panics := hinv.panics
        crash := hinv.crash
        reqLen := hinv.reqLen
        reqMem := hinv.reqMem }
  | crash k t ht hpc hp =>
    exact
      { storiesLen := hinv.storiesLen
        taskWf := hinv.taskWf
        ctl := hinv.ctl
        semAcct := hinv.semAcct
        semCap := hinv.semCap
        wgAcct := hinv.wgAcct
        slots := hinv.slots
        panics := hinv.panics
        crash := fun _ => ⟨k, t, ht, hp, hpc⟩
        reqLen := hinv.reqLen
        reqMem := hinv.reqMem }
  | fetchOk k t stry ht hpc hd hidx =>
    obtain ⟨hwf1, hwf2, hwf3⟩ := hinv.taskWf k t ht
    have hts := fun f u => total_set f s.tasks k t u ht
    exact
      { storiesLen := by
          show (s.stories.set t.idx stry).length = numStories
          rw [List.length_set]
          exact hinv.storiesLen
        taskWf := by
          apply set_forall (fun j v => v.idx = j ∧ topIDs[j]? = some v.id ∧ j < numStories)
            s.tasks k t _ ht
          · intro j v hv _
            exact hinv.taskWf j v hv
          · exact ⟨hwf1, hwf2, hwf3⟩
        ctl := by
          refine ctlOk_of topIDs s _ ?_ ?_ ?_ hinv.ctl
          · rfl
          · simp
          · exact Nat.le_refl _
        semAcct := by
          have := hts semUnits { t with pc := .deferDone }
          simp only [hpc, semUnits] at this
          show s.sem = total semUnits (s.tasks.set k { t with pc := .deferDone })
            + pendingLaunch s.ctl
          omega
        semCap := hinv.semCap
        wgAcct := by
          have := hts wgUnits { t with pc := .deferDone }
          simp only [hpc, wgUnits] at this
          have := hinv.wgAcct
          show s.wg = total wgUnits (s.tasks.set k { t with pc := .deferDone })
          omega
        slots := by
          intro j hj
          show (s.stories.set t.idx stry)[j]?
            = some (slotOf detail (s.tasks.set k { t with pc := .deferDone })[j]?)
          rw [hwf1]
          by_cases hjk : j = k
          · subst hjk
            have hlt : j < s.stories.length := by rw [hinv.storiesLen]; exact hj
            rw [set_self s.tasks j t _ ht]
            simp [List.getElem?_set, hlt, slotOf, hd]
          · rw [set_other s.tasks k j _ hjk, set_other s.stories k j _ hjk]
            exact hinv.slots j hj
        panics := by
          apply set_forall
            (fun _ v => v.panicking = true → v.pc ≠ .fetch ∧ ∀ stry, detail v.id ≠ .ok stry)
            s.tasks k t _ ht
          · intro j v hv _
            exact hinv.panics j v hv
          · intro hp
            have := hinv.panics k t ht hp
            exact absurd hpc this.1
        crash := by
          intro hc1
          exact absurd hc1 (by simp [hcr])
        reqLen := by
          have := hts reqUnits { t with pc := .deferDone }
          simp only [hpc, reqUnits] at this
          have := hinv.reqLen
          show (s.requests ++ [(t.idx, t.id)]).length
            = total reqUnits (s.tasks.set k { t with pc := .deferDone })
          simp only [List.length_append, List.length_singleton]
          omega
        reqMem := by
          apply set_forall
            (fun j v => v.pc ≠ .fetch → (j, v.id) ∈ s.requests ++ [(t.idx, t.id)])
            s.tasks k t _ ht
          · intro j v hv _ hne
            exact List.mem_append_left _ (hinv.reqMem j v hv hne)
          · intro _
            simp [hwf1] }
  | fetchPanic k t ht hpc hd =>
    obtain ⟨hwf1, hwf2, hwf3⟩ := hinv.taskWf k t ht
    have hts := fun f u => total_set f s.tasks k t u ht
    have hbad : ∀ stry, detail t.id ≠ .ok stry := by
      rcases hd with hd | hd
      · exact hd
      · exact absurd (by rw [hinv.storiesLen, hwf1]; exact hwf3) hd
    exact
      { storiesLen := hinv.storiesLen
        taskWf := by
          apply set_forall (fun j v => v.idx = j ∧ topIDs[j]? = some v.id ∧ j < numStories)
            s.tasks k t _ ht
          · intro j v hv _
            exact hinv.taskWf j v hv
          · exact ⟨hwf1, hwf2, hwf3⟩
        ctl := by
          refine ctlOk_of topIDs s _ ?_ ?_ ?_ hinv.ctl
          · rfl
          · simp
          · exact Nat.le_refl _
        semAcct := by
          have := hts semUnits { t with pc := .deferDone, panicking := true }
          simp only [hpc, semUnits] at this
          show s.sem = total semUnits
            (s.tasks.set k { t with pc := .deferDone, panicking := true }) + pendingLaunch s.ctl
          omega
        semCap := hinv.semCap
        wgAcct := by
          have := hts wgUnits { t with pc := .deferDone, panicking := true }
          simp only [hpc, wgUnits] at this
          have := hinv.wgAcct
          show s.wg = total wgUnits
            (s.tasks.set k { t with pc := .deferDone, panicking := true })
          omega
        slots := by
          intro j hj
          show s.stories[j]? = some (slotOf detail
            (s.tasks.set k { t with pc := .deferDone, panicking := true })[j]?)
          by_cases hjk : j = k
          · subst hjk
            rw [set_self s.tasks j t _ ht]
            have hs := hinv.slots j hj
            rw [ht] at hs
            have hz : slotOf detail (some { t with pc := .deferDone, panicking := true })
                = story.zero := by
              cases hdt : detail t.id with
              | ok stry => exact absurd hdt (hbad stry)
              | getFailed err => simp [slotOf, hdt]
              | readFailed err => simp [slotOf, hdt]
              | decodeFailed err => simp [slotOf, hdt]
            rw [hz, hs]
            simp [slotOf, hpc]
          · rw [set_other s.tasks k j _ hjk]
            exact hinv.slots j hj
        panics := by
          apply set_forall
            (fun _ v => v.panicking = true → v.pc ≠ .fetch ∧ ∀ stry, detail v.id ≠ .ok stry)
            s.tasks k t _ ht
          · intro j v hv _
            exact hinv.panics j v hv
          · intro _
            exact ⟨by simp, hbad⟩
        crash := by
          intro hc1
          exact absurd hc1 (by simp [hcr])
        reqLen := by
          have := hts reqUnits { t with pc := .deferDone, panicking := true }
          simp only [hpc, reqUnits] at this
          have := hinv.reqLen
          show (s.requests ++ [(t.idx, t.id)]).length
            = total reqUnits (s.tasks.set k { t with pc := .deferDone, panicking := true })
          simp only [List.length_append, List.length_singleton]
          omega
        reqMem := by
          apply set_forall
            (fun j v => v.pc ≠ .fetch → (j, v.id) ∈ s.requests ++ [(t.idx, t.id)])
            s.tasks k t _ ht
          · intro j v hv _ hne
            exact List.mem_append_left _ (hinv.reqMem j v hv hne)
          · intro _
            simp [hwf1] }
  | done k t ht hpc hwg =>
    obtain ⟨hwf1, hwf2, hwf3⟩ := hinv.taskWf k t ht
    have hts := fun f u => total_set f s.tasks k t u ht
    exact
      { storiesLen := hinv.storiesLen
        taskWf := by
          apply set_forall (fun j v => v.idx = j ∧ topIDs[j]? = some v.id ∧ j < numStories)
            s.tasks k t _ ht
          · intro j v hv _
            exact hinv.taskWf j v hv
          · exact ⟨hwf1, hwf2, hwf3⟩
        ctl := by
          refine ctlOk_of topIDs s _ ?_ ?_ ?_ hinv.ctl
          · rfl
          · simp
          · exact Nat.sub_le _ _
        semAcct := by
          have := hts semUnits { t with pc := .deferRecv }
          simp only [hpc, semUnits] at this
          show s.sem = total semUnits (s.tasks.set k { t with pc := .deferRecv })
            + pendingLaunch s.ctl
          omega
        semCap := hinv.semCap
        wgAcct := by
          have := hts wgUnits { t with pc := .deferRecv }
          simp only [hpc, wgUnits] at this
          have := hinv.wgAcct
          show s.wg - 1 = total wgUnits (s.tasks.set k { t with pc := .deferRecv })
          omega
        slots := by
          intro j hj
          show s.stories[j]? = some (slotOf detail
            (s.tasks.set k { t with pc := .deferRecv })[j]?)
          by_cases hjk : j = k
          · subst hjk
            rw [set_self s.tasks j t _ ht,
              slotOf_pc detail t { t with pc := .deferRecv } rfl (by simp [hpc]) (by simp),
              ← ht]
            exact hinv.slots j hj
          · rw [set_other s.tasks k j _ hjk]
            exact hinv.slots j hj
        panics := by
          apply set_forall
            (fun _ v => v.panicking = true → v.pc ≠ .fetch ∧ ∀ stry, detail v.id ≠ .ok stry)
            s.tasks k t _ ht
          · intro j v hv _
            exact hinv.panics j v hv
          · intro hp
            exact ⟨by simp, (hinv.panics k t ht hp).2⟩
        crash := by
          intro hc1
          exact absurd hc1 (by simp [hcr])
        reqLen := by
          have := hts reqUnits { t with pc := .deferRecv }
          simp only [hpc, reqUnits] at this
          have := hinv.reqLen
          show s.requests.length = total reqUnits (s.tasks.set k { t with pc := .deferRecv })
          omega
        reqMem := by
          apply set_forall (fun j v => v.pc ≠ .fetch → (j, v.id) ∈ s.requests)
            s.tasks k t _ ht
          · intro j v hv _ hne
            exact hinv.reqMem j v hv hne
          · intro _
            exact hinv.reqMem k t ht (by simp [hpc]) }
  | donePanic k t ht hpc hwg =>
    have hts := total_set wgUnits s.tasks k t t ht
    have hpos : 0 < total wgUnits s.tasks := by
      have h1 := total_set wgUnits s.tasks k t { t with pc := .exited } ht
      simp only [hpc, wgUnits] at h1
      omega
    have := hinv.wgAcct
    omega
  | recv k t ht hpc hsemp =>
    obtain ⟨hwf1, hwf2, hwf3⟩ := hinv.taskWf k t ht
    have hts := fun f u => total_set f s.tasks k t u ht
    exact
      { storiesLen := hinv.storiesLen
        taskWf := by
          apply set_forall (fun j v => v.idx = j ∧ topIDs[j]? = some v.id ∧ j < numStories)
            s.tasks k t _ ht
          · intro j v hv _
            exact hinv.taskWf j v hv
          · exact ⟨hwf1, hwf2, hwf3⟩
        ctl := by
          refine ctlOk_of topIDs s _ ?_ ?_ ?_ hinv.ctl
          · rfl
          · simp
          · exact Nat.le_refl _
        semAcct := by
          have := hts semUnits { t with pc := .exited }
          simp only [hpc, semUnits] at this
          show s.sem - 1 = total semUnits (s.tasks.set k { t with pc := .exited })
            + pendingLaunch s.ctl
          omega
        semCap := by
          have := hinv.semCap
          show s.sem - 1 ≤ h.cap
          omega
        wgAcct := by
          have := hts wgUnits { t with pc := .exited }
          simp only [hpc, wgUnits] at this
          have := hinv.wgAcct
          show s.wg = total wgUnits (s.tasks.set k { t with pc := .exited })
          omega
        slots := by
          intro j hj
          show s.stories[j]? = some (slotOf detail
            (s.tasks.set k { t with pc := .exited })[j]?)
          by_cases hjk : j = k
          · subst hjk
            rw [set_self s.tasks j t _ ht,
              slotOf_pc detail t { t with pc := .exited } rfl (by simp [hpc]) (by simp),
              ← ht]
            exact hinv.slots j hj
          · rw [set_other s.tasks k j _ hjk]
            exact hinv.slots j hj
        panics := by
          apply set_forall
            (fun _ v => v.panicking = true → v.pc ≠ .fetch ∧ ∀ stry, detail v.id ≠ .ok stry)
            s.tasks k t _ ht
          · intro j v hv _
            exact hinv.panics j v hv
          · intro hp
            exact ⟨by simp, (hinv.panics k t ht hp).2⟩
        crash := by
          intro hc1
          exact absurd hc1 (by simp [hcr])
        reqLen := by
          have := hts reqUnits { t with pc := .exited }
          simp only [hpc, reqUnits] at this
          have := hinv.reqLen
          show s.requests.length = total reqUnits (s.tasks.set k { t with pc := .exited })
          omega
        reqMem := by
          apply set_forall (fun j v => v.pc ≠ .fetch → (j, v.id) ∈ s.requests)
            s.tasks k t _ ht
          · intro j v hv _ hne
            exact hinv.reqMem j v hv hne
          · intro _
            exact hinv.reqMem k t ht (by simp [hpc]) }


theorem total_const (f : TaskPc → Nat) (c : Nat) (l : List Task)
    (hall : ∀ (k : Nat) (t : Task), l[k]? = some t → f t.pc = c) :
    total f l = c * l.length := by
  induction l with
  | nil => simp [total_nil]
  | cons a l ih =>
    rw [total_cons, hall 0 a (by simp), ih (fun k t hk => hall (k + 1) t (by simpa using hk))]
    simp [Nat.mul_succ]
    omega

/-! ## Termination and progress -/

theorem trans_measure (h : hndsimpl) (topIDs : List Int) (detail : Int → Fetched story)
    (s s1 : State) (hinv : Inv h topIDs detail s) (hcr : s.crashed = false)
    (htr : Trans h topIDs detail s s1) :
    s.measure topIDs = s1.measure topIDs + 1 := by
  have hctl := hinv.ctl
  unfold State.measure
  cases htr with
  | loopExit i hc hx =>
    simp only [ctlOk, hc] at hctl
    have hK : fetchCount topIDs - i = 0 := by
      unfold fetchCount
      rcases hx with hx | hx
      · have : topIDs.length ≤ i := by
          rcases Nat.lt_or_ge i topIDs.length with hlt | hge
          · simp [List.getElem?_eq_getElem hlt] at hx
          · exact hge
        omega
      · omega
    simp only [hc, ctlLeft, hK, hcr]
    simp
    omega
  | acquire i id hc hid hi hsemlt =>
    simp only [hc, ctlLeft, hcr]
    omega
  | launch i id hc =>
    simp only [ctlOk, hc] at hctl
    have hilt : i < topIDs.length := lookup_lt topIDs i id hctl.2.1
    have hK : i < fetchCount topIDs := by
      unfold fetchCount
      omega
    simp only [hc, ctlLeft, hcr, total_append_one, stepsLeft]
    omega
  | waitDone hc hwg =>
    simp only [hc, ctlLeft, hcr]
    omega
  | fetchOk k t stry ht hpc hd hidx =>
    have := total_set stepsLeft s.tasks k t { t with pc := .deferDone } ht
    simp only [hpc, stepsLeft] at this
    simp only [hcr]
    omega
  | fetchPanic k t ht hpc hd =>
    have := total_set stepsLeft s.tasks k t { t with pc := .deferDone, panicking := true } ht
    simp only [hpc, stepsLeft] at this
    simp only [hcr]
    omega
  | done k t ht hpc hwg =>
    have := total_set stepsLeft s.tasks k t { t with pc := .deferRecv } ht
    simp only [hpc, stepsLeft] at this
    simp only [hcr]
    omega
  | donePanic k t ht hpc hwg =>
    have := total_set stepsLeft s.tasks k t { t with pc := .deferRecv, panicking := true } ht
    simp only [hpc, stepsLeft] at this
    simp only [hcr]
    omega
  | recv k t ht hpc hsemp =>
    have := total_set stepsLeft s.tasks k t { t with pc := .exited } ht
    simp only [hpc, stepsLeft] at this
    simp only [hcr]
    omega
  | crash k t ht hpc hp =>
    simp only [hcr]
    simp
    omega

theorem exec_inv (h : hndsimpl) (topIDs : List Int) (detail : Int → Fetched story)
    (sched : List Nat) (s s1 : State) (hinv : Inv h topIDs detail s)
    (hex : exec h topIDs detail s sched = some s1) :
    Inv h topIDs detail s1 ∧ s.measure topIDs = s1.measure topIDs + sched.length := by
  induction sched generalizing s with
  | nil =>
    simp only [exec, Option.some.injEq] at hex
    subst hex
    exact ⟨hinv, rfl⟩
  | cons c cs ih =>
    simp only [exec] at hex
    split at hex
    · simp at hex
    · rename_i s2 hs2
      obtain ⟨hcr, htr⟩ := step_trans h topIDs detail s s2 c hs2
      have hinv2 := trans_inv h topIDs detail s s2 hinv hcr htr
      have hm := trans_measure h topIDs detail s s2 hinv hcr htr
      obtain ⟨hi, hmm⟩ := ih s2 hinv2 hex
      refine ⟨hi, ?_⟩
      simp only [List.length_cons]
      omega

theorem task_can_step (h : hndsimpl) (topIDs : List Int) (detail : Int → Fetched story)
    (s : State) (k : Nat) (t : Task) (ht : s.tasks[k]? = some t) (hpc : t.pc ≠ .exited)
    (hsem : 0 < s.sem) (hcr : s.crashed = false) :
    ∃ s1, step h topIDs detail s (k + 1) = some s1 := by
  simp only [step, hcr, stepTask, ht]
  cases hp : t.pc with
  | fetch =>
    simp only [Bool.false_eq_true, if_false]
    cases hd : detail t.id with
    | ok stry =>
      simp only
      split <;> exact ⟨_, rfl⟩
    | getFailed err => exact ⟨_, rfl⟩
    | readFailed err => exact ⟨_, rfl⟩
    | decodeFailed err => exact ⟨_, rfl⟩
  | deferDone =>
    simp only [Bool.false_eq_true, if_false]
    split <;> exact ⟨_, rfl⟩
  | deferRecv =>
    simp only [Bool.false_eq_true, if_false, hsem, if_true]
    exact ⟨_, rfl⟩
  | exited => exact absurd hp hpc

theorem progress (h : hndsimpl) (topIDs : List Int) (detail : Int → Fetched story)
    (s : State) (hinv : Inv h topIDs detail s) (hcap : 0 < h.cap)
    (hcr : s.crashed = false) (hret : s.ctl ≠ .ret) :
    ∃ c s1, step h topIDs detail s c = some s1 := by
  have hsa := hinv.semAcct
  have holder : ∀ (f : TaskPc → Nat), 0 < total f s.tasks →
      (∀ pc, 0 < f pc → pc ≠ .exited) → ∃ c s1, step h topIDs detail s c = some s1 := by
    intro f hpos hf
    obtain ⟨k, t, ht, hft⟩ := total_pos f s.tasks hpos
    have hne := hf t.pc hft
    have h1 := total_set semUnits s.tasks k t { t with pc := .exited } ht
    have hu : semUnits t.pc = 1 := by
      cases hp : t.pc <;> simp_all [semUnits]
    simp only [hu, semUnits] at h1
    obtain ⟨s1, hs1⟩ := task_can_step h topIDs detail s k t ht hne (by omega) hcr
    exact ⟨k + 1, s1, hs1⟩
  cases hc : s.ctl with
  | loop i =>
    by_cases hfull : s.sem < h.cap
    · refine ⟨0, ?_⟩
      simp only [step, hcr, stepCtl, hc]
      simp only [Bool.false_eq_true, if_false]
      cases topIDs[i]? with
      | none => exact ⟨_, rfl⟩
      | some id =>
        simp only [hfull, if_true]
        split <;> exact ⟨_, rfl⟩
    · by_cases hx : topIDs[i]? = none ∨ numStories ≤ i
      · refine ⟨0, ?_⟩
        simp only [step, hcr, stepCtl, hc]
        simp only [Bool.false_eq_true, if_false]
        rcases hx with hx | hx
        · rw [hx]
          exact ⟨_, rfl⟩
        · cases topIDs[i]? with
          | none => exact ⟨_, rfl⟩
          | some id =>
            simp only [hx, if_true]
            exact ⟨_, rfl⟩
      · apply holder semUnits
        · simp only [hc, pendingLaunch] at hsa
          omega
        · intro pc hp
          cases pc <;> simp_all [semUnits]
  | launch i id =>
    refine ⟨0, ?_⟩
    simp only [step, hcr, stepCtl, hc]
    exact ⟨_, rfl⟩
  | wait =>
    by_cases hwg : s.wg = 0
    · refine ⟨0, ?_⟩
      simp only [step, hcr, stepCtl, hc, hwg]
      exact ⟨_, rfl⟩
    · apply holder wgUnits
      · have := hinv.wgAcct
        omega
      · intro pc hp
        cases pc <;> simp_all [wgUnits]
  | ret => exact absurd hc hret


theorem no_crash (h : hndsimpl) (topIDs : List Int) (detail : Int → Fetched story)
    (s : State) (hinv : Inv h topIDs detail s)
    (hok : ∀ (r : Nat) (id : Int), r < numStories → topIDs[r]? = some id →
      ∃ stry, detail id = .ok stry) :
    s.crashed = false := by
  cases hcr : s.crashed with
  | false => rfl
  | true =>
    obtain ⟨j, t, ht, hp, _⟩ := hinv.crash hcr
    obtain ⟨_, hid, hj⟩ := hinv.taskWf j t ht
    obtain ⟨stry, hs⟩ := hok j t.id hj hid
    exact absurd hs ((hinv.panics j t ht hp).2 stry)

theorem completes (h : hndsimpl) (topIDs : List Int) (detail : Int → Fetched story)
    (hcap : 0 < h.cap)
    (hok : ∀ (r : Nat) (id : Int), r < numStories → topIDs[r]? = some id →
      ∃ stry, detail id = .ok stry) :
    ∀ (n : Nat) (s : State), s.measure topIDs ≤ n → Inv h topIDs detail s →
      ∃ rest s1, exec h topIDs detail s rest = some s1 ∧ s1.ctl = .ret := by
  intro n
  induction n with
  | zero =>
    intro s hm hinv
    have hcr := no_crash h topIDs detail s hinv hok
    simp only [State.measure, hcr] at hm
    simp at hm
  | succ n ih =>
    intro s hm hinv
    by_cases hret : s.ctl = .ret
    · exact ⟨[], s, rfl, hret⟩
    · have hcr := no_crash h topIDs detail s hinv hok
      obtain ⟨c, s2, hs2⟩ := progress h topIDs detail s hinv hcap hcr hret
      obtain ⟨_, htr⟩ := step_trans h topIDs detail s s2 c hs2
      have hinv2 := trans_inv h topIDs detail s s2 hinv hcr htr
      have hm2 := trans_measure h topIDs detail s s2 hinv hcr htr
      obtain ⟨rest, s1, hex, hr⟩ := ih s2 (by omega) hinv2
      refine ⟨c :: rest, s1, ?_, hr⟩
      simp only [exec, hs2]
      exact hex

theorem measure_init (topIDs : List Int) :
    State.init.measure topIDs = 5 * fetchCount topIDs + 3 := by
  simp [State.measure, State.init, ctlLeft, total_nil]
  omega

theorem ret_tasks (h : hndsimpl) (topIDs : List Int) (detail : Int → Fetched story)
    (s : State) (hinv : Inv h topIDs detail s) (hret : s.ctl = .ret) :
    s.tasks.length = fetchCount topIDs ∧
      ∀ (k : Nat) (t : Task), s.tasks[k]? = some t → t.pc ≠ .fetch := by
  have hctl := hinv.ctl
  simp only [ctlOk, hret] at hctl
  refine ⟨hctl.1, ?_⟩
  intro k t ht hpc
  have hz : total wgUnits s.tasks = 0 := by
    have := hinv.wgAcct
    omega
  have := total_zero wgUnits s.tasks hz k t ht
  simp [hpc, wgUnits] at this

theorem ret_slot (h : hndsimpl) (topIDs : List Int) (detail : Int → Fetched story)
    (s : State) (hinv : Inv h topIDs detail s) (hret : s.ctl = .ret)
    (r : Nat) (id : Int) (stry : story) (hr : r < numStories) (hid : topIDs[r]? = some id)
    (hd : detail id = .ok stry) :
    s.stories[r]? = some stry ∧ (r, id) ∈ s.requests := by
  obtain ⟨hlen, hpast⟩ := ret_tasks h topIDs detail s hinv hret
  have hrl : r < s.tasks.length := by
    have := lookup_lt topIDs r id hid
    rw [hlen]
    unfold fetchCount
    omega
  have ht : s.tasks[r]? = some s.tasks[r] := List.getElem?_eq_getElem hrl
  obtain ⟨_, hid2, _⟩ := hinv.taskWf r _ ht
  have hideq : (s.tasks[r]).id = id := by
    rw [hid] at hid2
    simpa using hid2.symm
  have hne := hpast r _ ht
  constructor
  · rw [hinv.slots r hr, ht]
    cases hp : (s.tasks[r]).pc <;> simp_all [slotOf]
  · have := hinv.reqMem r _ ht hne
    rwa [hideq] at this

theorem ret_zero_slot (h : hndsimpl) (topIDs : List Int) (detail : Int → Fetched story)
    (s : State) (hinv : Inv h topIDs detail s) (hret : s.ctl = .ret)
    (r : Nat) (hr : r < numStories) (hge : topIDs.length ≤ r) :
    s.stories[r]? = some story.zero := by
  obtain ⟨hlen, _⟩ := ret_tasks h topIDs detail s hinv hret
  have hnone : s.tasks[r]? = none := by
    apply List.getElem?_eq_none
    rw [hlen]
    unfold fetchCount
    omega
  rw [hinv.slots r hr, hnone]
  rfl

theorem ret_requests (h : hndsimpl) (topIDs : List Int) (detail : Int → Fetched story)
    (s : State) (hinv : Inv h topIDs detail s) (hret : s.ctl = .ret) :
    s.requests.length = fetchCount topIDs := by
  obtain ⟨hlen, hpast⟩ := ret_tasks h topIDs detail s hinv hret
  rw [hinv.reqLen, total_const reqUnits 1 s.tasks, hlen]
  · simp
  · intro k t ht
    have := hpast k t ht
    cases hp : t.pc <;> simp_all [reqUnits]

theorem observe_ok (h : hndsimpl) (topIDs : List Int) (detail : Int → Fetched story)
    (sched : List Nat)
    (hok : ∀ (r : Nat) (id : Int), r < numStories → topIDs[r]? = some id →
      ∃ stry, detail id = .ok stry)
    (res : TSResult) (hres : h.topStories (.ok topIDs) detail sched = some res) :
    ∃ s, exec h topIDs detail State.init sched = some s ∧ s.ctl = .ret ∧
      Inv h topIDs detail s ∧ res.outcome = .returned s.stories none ∧
      res.requests = s.requests := by
  simp only [hndsimpl.topStories] at hres
  split at hres
  · simp at hres
  · rename_i s hs
    have hinv := (exec_inv h topIDs detail sched State.init s
      (inv_init h topIDs detail) hs).1
    have hcr := no_crash h topIDs detail s hinv hok
    simp only [State.observe, hcr] at hres
    split at hres
    · rename_i hret
      simp at hres
      subst hres
      exact ⟨s, hs, hret, hinv, rfl, rfl⟩
    · simp at hres


theorem run_facts (h : hndsimpl) (topIDs : List Int) (detail : Int → Fetched story)
    (hcap : 0 < h.cap)
    (hok : ∀ (r : Nat) (id : Int), r < numStories → topIDs[r]? = some id →
      ∃ stry, detail id = .ok stry)
    (sched : List Nat) (s : State)
    (hex : exec h topIDs detail State.init sched = some s) :
    s.crashed = false ∧ sched.length ≤ 5 * fetchCount topIDs + 2 ∧
      ((∀ c, step h topIDs detail s c = none) → s.ctl = .ret) ∧
      ∃ rest s1, exec h topIDs detail s rest = some s1 ∧ s1.ctl = .ret := by
  obtain ⟨hinv, hm⟩ := exec_inv h topIDs detail sched State.init s (inv_init h topIDs detail) hex
  have hcr := no_crash h topIDs detail s hinv hok
  refine ⟨hcr, ?_, ?_, ?_⟩
  · rw [measure_init] at hm
    have : 1 ≤ s.measure topIDs := by
      simp only [State.measure, hcr]
      simp
      omega
    omega
  · intro hstuck
    by_contra hret
    obtain ⟨c, s1, hs1⟩ := progress h topIDs detail s hinv hcap hcr hret
    rw [hstuck c] at hs1
    simp at hs1
  · exact completes h topIDs detail hcap hok (s.measure topIDs) s (Nat.le_refl _) hinv

/-! ## The release of the semaphore -/

theorem set_inflight (l : List Task) (k : Nat) (t u : Task) (ht : l[k]? = some t) :
    total semUnits (l.set k u) + semUnits t.pc = total semUnits l + semUnits u.pc ∧
      ((l.set k u).filter (fun v => decide (v.pc = .exited))).length
        = (l.filter (fun v => decide (v.pc = .exited))).length + semUnits t.pc
          - semUnits u.pc := by
  have h1 := total_set semUnits l k t u ht
  have h2 := total_semUnits_add_exited l
  have h3 := total_semUnits_add_exited (l.set k u)
  rw [List.length_set] at h3
  have h4 : semUnits t.pc ≤ 1 := by cases t.pc <;> simp [semUnits]
  have h5 : semUnits u.pc ≤ 1 := by cases u.pc <;> simp [semUnits]
  refine ⟨h1, ?_⟩
  omega

theorem step_body (h : hndsimpl) (topIDs : List Int) (detail : Int → Fetched story)
    (s : State) (k : Nat) (t : Task) (ht : s.tasks[k]? = some t) (hpc : t.pc = .fetch)
    (hcr : s.crashed = false) :
    ∃ s1 u, step h topIDs detail s (k + 1) = some s1 ∧ s1.tasks = s.tasks.set k u ∧
      u.pc = .deferDone ∧ s1.sem = s.sem ∧ s1.crashed = false ∧
      ((t.panicking = true ∨ ∀ stry, detail t.id ≠ .ok stry) → u.panicking = true) := by
  simp only [step, hcr, stepTask, ht, hpc, Bool.false_eq_true, if_false]
  cases hd : detail t.id with
  | ok stry =>
    simp only
    split
    · refine ⟨_, _, rfl, rfl, rfl, rfl, rfl, ?_⟩
      intro hp
      rcases hp with hp | hp
      · exact hp
      · exact absurd rfl (hp stry)
    · exact ⟨_, _, rfl, rfl, rfl, rfl, rfl, fun _ => rfl⟩
  | getFailed err => exact ⟨_, _, rfl, rfl, rfl, rfl, rfl, fun _ => rfl⟩
  | readFailed err => exact ⟨_, _, rfl, rfl, rfl, rfl, rfl, fun _ => rfl⟩
  | decodeFailed err => exact ⟨_, _, rfl, rfl, rfl, rfl, rfl, fun _ => rfl⟩

theorem step_deferDone (h : hndsimpl) (topIDs : List Int) (detail : Int → Fetched story)
    (s : State) (k : Nat) (t : Task) (ht : s.tasks[k]? = some t) (hpc : t.pc = .deferDone)
    (hcr : s.crashed = false) :
    ∃ s1 u, step h topIDs detail s (k + 1) = some s1 ∧ s1.tasks = s.tasks.set k u ∧
      u.pc = .deferRecv ∧ s1.sem = s.sem ∧ s1.crashed = false ∧
      (t.panicking = true → u.panicking = true) := by
  simp only [step, hcr, stepTask, ht, hpc, Bool.false_eq_true, if_false]
  split
  · exact ⟨_, _, rfl, rfl, rfl, rfl, rfl, fun hp => hp⟩
  · exact ⟨_, _, rfl, rfl, rfl, rfl, rfl, fun _ => rfl⟩

theorem step_deferRecv (h : hndsimpl) (topIDs : List Int) (detail : Int → Fetched story)
    (s : State) (k : Nat) (t : Task) (ht : s.tasks[k]? = some t) (hpc : t.pc = .deferRecv)
    (hcr : s.crashed = false) (hsem : 0 < s.sem) :
    ∃ s1 u, step h topIDs detail s (k + 1) = some s1 ∧ s1.tasks = s.tasks.set k u ∧
      u.pc = .exited ∧ s1.sem + 1 = s.sem ∧ s1.crashed = false ∧
      (t.panicking = true → u.panicking = true) := by
  simp only [step, hcr, stepTask, ht, hpc, Bool.false_eq_true, if_false, hsem, if_true]
  refine ⟨_, _, rfl, rfl, rfl, ?_, rfl, fun hp => hp⟩
  show s.sem - 1 + 1 = s.sem
  omega

theorem run_from_deferRecv (h : hndsimpl) (topIDs : List Int) (detail : Int → Fetched story)
    (s : State) (k : Nat) (t : Task) (ht : s.tasks[k]? = some t) (hpc : t.pc = .deferRecv)
    (hcr : s.crashed = false) (hsem : 0 < s.sem) :
    ∃ s1 u, exec h topIDs detail s [k + 1] = some s1 ∧ s1.tasks[k]? = some u ∧
      u.pc = .exited ∧ (t.panicking = true → u.panicking = true) ∧
      s1.sem + 1 = s.sem ∧ s1.inflight + 1 = s.inflight ∧ s1.finished = s.finished + 1 := by
  obtain ⟨s1, u, hs1, htasks, hu, hsem1, _, hp⟩ :=
    step_deferRecv h topIDs detail s k t ht hpc hcr hsem
  have hacc := set_inflight s.tasks k t u ht
  simp only [hpc, hu, semUnits] at hacc
  refine ⟨s1, u, ?_, ?_, hu, hp, hsem1, ?_, ?_⟩
  · simp only [exec, hs1]
  · rw [htasks]
    exact set_self s.tasks k t u ht
  · unfold State.inflight
    rw [htasks]
    omega
  · unfold State.finished
    rw [htasks]
    omega

theorem run_from_deferDone (h : hndsimpl) (topIDs : List Int) (detail : Int → Fetched story)
    (s : State) (k : Nat) (t : Task) (ht : s.tasks[k]? = some t) (hpc : t.pc = .deferDone)
    (hcr : s.crashed = false) (hsem : 0 < s.sem) :
    ∃ s1 u, exec h topIDs detail s [k + 1, k + 1] = some s1 ∧ s1.tasks[k]? = some u ∧
      u.pc = .exited ∧ (t.panicking = true → u.panicking = true) ∧
      s1.sem + 1 = s.sem ∧ s1.inflight + 1 = s.inflight ∧ s1.finished = s.finished + 1 := by
  obtain ⟨s1, u, hs1, htasks, hu, hsem1, hcr1, hp⟩ :=
    step_deferDone h topIDs detail s k t ht hpc hcr
  have hu1 : s1.tasks[k]? = some u := by
    rw [htasks]
    exact set_self s.tasks k t u ht
  have hacc := set_inflight s.tasks k t u ht
  simp only [hpc, hu, semUnits] at hacc
  obtain ⟨s2, v, hs2, hv, hvpc, hvp, hsem2, hin2, hfin2⟩ :=
    run_from_deferRecv h topIDs detail s1 k u hu1 hu hcr1 (by omega)
  refine ⟨s2, v, ?_, hv, hvpc, fun hpt => hvp (hp hpt), by omega, ?_, ?_⟩
  · simp only [exec, hs1]
    exact hs2
  · have : s1.inflight = s.inflight := by
      unfold State.inflight
      rw [htasks]
      omega
    omega
  · have : s1.finished = s.finished := by
      unfold State.finished
      rw [htasks]
      omega
    omega

theorem run_from_fetch (h : hndsimpl) (topIDs : List Int) (detail : Int → Fetched story)
    (s : State) (k : Nat) (t : Task) (ht : s.tasks[k]? = some t) (hpc : t.pc = .fetch)
    (hcr : s.crashed = false) (hsem : 0 < s.sem) :
    ∃ s1 u, exec h topIDs detail s [k + 1, k + 1, k + 1] = some s1 ∧ s1.tasks[k]? = some u ∧
      u.pc = .exited ∧
      ((t.panicking = true ∨ ∀ stry, detail t.id ≠ .ok stry) → u.panicking = true) ∧
      s1.sem + 1 = s.sem ∧ s1.inflight + 1 = s.inflight ∧ s1.finished = s.finished + 1 := by
  obtain ⟨s1, u, hs1, htasks, hu, hsem1, hcr1, hp⟩ :=
    step_body h topIDs detail s k t ht hpc hcr
  have hu1 : s1.tasks[k]? = some u := by
    rw [htasks]
    exact set_self s.tasks k t u ht
  have hacc := set_inflight s.tasks k t u ht
  simp only [hpc, hu, semUnits] at hacc
  obtain ⟨s2, v, hs2, hv, hvpc, hvp, hsem2, hin2, hfin2⟩ :=
    run_from_deferDone h topIDs detail s1 k u hu1 hu hcr1 (by omega)
  refine ⟨s2, v, ?_, hv, hvpc, fun hpt => hvp (hp hpt), by omega, ?_, ?_⟩
  · simp only [exec, hs1]
    exact hs2
  · have : s1.inflight = s.inflight := by
      unfold State.inflight
      rw [htasks]
      omega
    omega
  · have : s1.finished = s.finished := by
      unfold State.finished
      rw [htasks]
      omega
    omega

theorem trans_sem (h : hndsimpl) (topIDs : List Int) (detail : Int → Fetched story)
    (s s1 : State) (htr : Trans h topIDs detail s s1) :
    (s1.sem = s.sem + 1 ∧ s1.finished = s.finished ∧ s1.tasks = s.tasks ∧
        pendingLaunch s.ctl = 0 ∧ pendingLaunch s1.ctl = 1) ∨
      (s1.sem = s.sem ∧ s1.finished = s.finished) ∨
      (s1.sem + 1 = s.sem ∧ s1.finished = s.finished + 1) := by
  cases htr with
  | loopExit i hc hx => exact Or.inr (Or.inl ⟨rfl, rfl⟩)
  | acquire i id hc hid hi hsemlt =>
    refine Or.inl ⟨rfl, rfl, rfl, ?_, rfl⟩
    rw [hc]
    rfl
  | launch i id hc =>
    refine Or.inr (Or.inl ⟨rfl, ?_⟩)
    simp [State.finished, List.filter_append]
  | waitDone hc hwg => exact Or.inr (Or.inl ⟨rfl, rfl⟩)
  | fetchOk k t stry ht hpc hd hidx =>
    have hacc := set_inflight s.tasks k t { t with pc := .deferDone } ht
    simp only [hpc, semUnits] at hacc
    refine Or.inr (Or.inl ⟨rfl, ?_⟩)
    unfold State.finished
    exact hacc.2
  | fetchPanic k t ht hpc hd =>
    have hacc := set_inflight s.tasks k t { t with pc := .deferDone, panicking := true } ht
    simp only [hpc, semUnits] at hacc
    refine Or.inr (Or.inl ⟨rfl, ?_⟩)
    unfold State.finished
    exact hacc.2
  | done k t ht hpc hwg =>
    have hacc := set_inflight s.tasks k t { t with pc := .deferRecv } ht
    simp only [hpc, semUnits] at hacc
    refine Or.inr (Or.inl ⟨rfl, ?_⟩)
    unfold State.finished
    exact hacc.2
  | donePanic k t ht hpc hwg =>
    have hacc := set_inflight s.tasks k t { t with pc := .deferRecv, panicking := true } ht
    simp only [hpc, semUnits] at hacc
    refine Or.inr (Or.inl ⟨rfl, ?_⟩)
    unfold State.finished
    exact hacc.2
  | recv k t ht hpc hsemp =>
    have hacc := set_inflight s.tasks k t { t with pc := .exited } ht
    simp only [hpc, semUnits] at hacc
    refine Or.inr (Or.inr ⟨?_, ?_⟩)
    · show s.sem - 1 + 1 = s.sem
      omega
    · unfold State.finished
      exact hacc.2
  | crash k t ht hpc hp => exact Or.inr (Or.inl ⟨rfl, rfl⟩)

/-! ## Claims on `topStories` -/

/-- C1. Order preservation: with a semaphore of positive capacity, a ranking
list of at least `numStories` identifiers and a detail source that answers
each of the first `numStories` identifiers with a story carrying it, every
schedule keeps the process alive, has at most `5 * numStories + 2` steps, can
only stop moving after the return and can always be continued up to the
return; and whenever `topStories` has returned under a schedule, it returned
`(stories, nil)` with exactly `numStories` slots, slot `r` carrying the
identifier at rank `r` of the ranking list. -/
theorem topStories_preserves_rank_order (numCPU : Nat) (hcpu : 0 < numCPU)
    (topIDs : List Int) (hlen : numStories ≤ topIDs.length)
    (detail : Int → Fetched story)
    (hdet : ∀ (r : Nat) (id : Int), r < numStories → topIDs[r]? = some id →
      ∃ stry, detail id = .ok stry ∧ stry.Id = id)
    (sched : List Nat) :
    (∀ s, exec (newHNDS numCPU) topIDs detail State.init sched = some s →
      s.crashed = false ∧ sched.length ≤ 5 * numStories + 2 ∧
      ((∀ c, step (newHNDS numCPU) topIDs detail s c = none) → s.ctl = .ret) ∧
      ∃ rest s1, exec (newHNDS numCPU) topIDs detail s rest = some s1 ∧ s1.ctl = .ret) ∧
    (∀ res, (newHNDS numCPU).topStories (.ok topIDs) detail sched = some res →
      ∃ stories, res.outcome = .returned stories none ∧ stories.length = numStories ∧
        ∀ (r : Nat), r < numStories → (stories[r]?).map story.Id = topIDs[r]?) := by
  have hok : ∀ (r : Nat) (id : Int), r < numStories → topIDs[r]? = some id →
      ∃ stry, detail id = .ok stry := by
    intro r id hr hid
    obtain ⟨stry, hs, _⟩ := hdet r id hr hid
    exact ⟨stry, hs⟩
  have hfc : fetchCount topIDs = numStories := by
    unfold fetchCount
    omega
  constructor
  · intro s hex
    have := run_facts (newHNDS numCPU) topIDs detail hcpu hok sched s hex
    rwa [hfc] at this
  · intro res hres
    obtain ⟨s, _, hret, hinv, hout, _⟩ :=
      observe_ok (newHNDS numCPU) topIDs detail sched hok res hres
    refine ⟨s.stories, hout, hinv.storiesLen, ?_⟩
    intro r hr
    have hrl : r < topIDs.length := by omega
    have hid : topIDs[r]? = some topIDs[r] := List.getElem?_eq_getElem hrl
    obtain ⟨stry, hd, hsid⟩ := hdet r _ hr hid
    rw [(ret_slot (newHNDS numCPU) topIDs detail s hinv hret r _ stry hr hid hd).1, hid]
    simp [hsid]

/-- C2. Short ranking list: with a semaphore of positive capacity, a ranking
list of `k < numStories` identifiers and a detail source that answers each of
them, every schedule keeps the process alive (no write outside the slice, which
would panic), has at most `5 * k + 2` steps, can only stop moving after the
return and can always be continued up to the return; and whenever `topStories`
has returned under a schedule, it returned `(stories, nil)` with exactly
`numStories` slots, the detail requests issued are a permutation of
`(0, id 0), ..., (k - 1, id (k - 1))`, slot `r < k` holds the story decoded for
the identifier at rank `r`, and every slot from `k` on holds the zero story. -/
theorem topStories_short_ranking (numCPU : Nat) (hcpu : 0 < numCPU)
    (topIDs : List Int) (hlen : topIDs.length < numStories)
    (detail : Int → Fetched story)
    (hdet : ∀ (r : Nat) (id : Int), topIDs[r]? = some id → ∃ stry, detail id = .ok stry)
    (sched : List Nat) :
    (∀ s, exec (newHNDS numCPU) topIDs detail State.init sched = some s →
      s.crashed = false ∧ s.stories.length = numStories ∧
      sched.length ≤ 5 * topIDs.length + 2 ∧
      ((∀ c, step (newHNDS numCPU) topIDs detail s c = none) → s.ctl = .ret) ∧
      ∃ rest s1, exec (newHNDS numCPU) topIDs detail s rest = some s1 ∧ s1.ctl = .ret) ∧
    (∀ res, (newHNDS numCPU).topStories (.ok topIDs) detail sched = some res →
      ∃ stories, res.outcome = .returned stories none ∧ stories.length = numStories ∧
        res.requests.Perm topIDs.enum ∧
        (∀ (r : Nat) (id : Int), topIDs[r]? = some id →
          ∃ stry, detail id = .ok stry ∧ stories[r]? = some stry) ∧
        (∀ (r : Nat), topIDs.length ≤ r → r < numStories →
          stories[r]? = some story.zero)) := by
  have hok : ∀ (r : Nat) (id : Int), r < numStories → topIDs[r]? = some id →
      ∃ stry, detail id = .ok stry := fun r id _ hid => hdet r id hid
  have hfc : fetchCount topIDs = topIDs.length := by
    unfold fetchCount
    omega
  constructor
  · intro s hex
    have hf := run_facts (newHNDS numCPU) topIDs detail hcpu hok sched s hex
    rw [hfc] at hf
    have hinv := (exec_inv (newHNDS numCPU) topIDs detail sched State.init s
      (inv_init _ topIDs detail) hex).1
    exact ⟨hf.1, hinv.storiesLen, hf.2⟩
  · intro res hres
    obtain ⟨s, _, hret, hinv, hout, hreq⟩ :=
      observe_ok (newHNDS numCPU) topIDs detail sched hok res hres
    refine ⟨s.stories, hout, hinv.storiesLen, ?_, ?_, ?_⟩
    · rw [hreq]
      apply List.Perm.symm
      apply List.Subperm.perm_of_length_le
      · apply List.subperm_of_subset
        · exact List.Nodup.of_map Prod.fst (List.nodup_enum_map_fst topIDs)
        · intro p hp
          obtain ⟨r, id⟩ := p
          have hid : topIDs[r]? = some id := List.mk_mem_enum_iff_getElem?.mp hp
          have hr : r < numStories := by
            have := lookup_lt topIDs r id hid
            omega
          obtain ⟨stry, hd⟩ := hdet r id hid
          exact (ret_slot (newHNDS numCPU) topIDs detail s hinv hret r id stry hr hid hd).2
      · rw [ret_requests (newHNDS numCPU) topIDs detail s hinv hret, hfc]
        simp
    · intro r id hid
      have hr : r < numStories := by
        have := lookup_lt topIDs r id hid
        omega
      obtain ⟨stry, hd⟩ := hdet r id hid
      exact ⟨stry, hd,
        (ret_slot (newHNDS numCPU) topIDs detail s hinv hret r id stry hr hid hd).1⟩
    · intro r hge hr
      exact ret_zero_slot (newHNDS numCPU) topIDs detail s hinv hret r hr hge

/-- C3 (the code at a failing input). One identifier is ranked and its detail
request fails at transport. Under the schedule: send, launch, leave the loop
(caller); request fails and panics, deferred `wg.Done()` (goroutine);
`wg.Wait()` passes (caller), `topStories` returns `(stories, nil)` with
`numStories` zero stories although the only detail fetch failed, and `main`
then emits `numStories` items. The panicking goroutine has its deferred
receive yet to run before the runtime ends the process. -/
theorem topStories_returns_after_failed_fetch :
    (newHNDS 1).topStories (.ok [7]) (fun _ => .getFailed { msg := "dial tcp: timeout" })
        [0, 0, 0, 1, 1, 0]
      = some { outcome := .returned (List.replicate numStories story.zero) none,
               requests := [(0, 7)] } ∧
    ∃ o, main { topStories := (List.replicate numStories story.zero, none) } (fun _ => 0)
      = .emitted o ∧ o.Items.length = numStories := by
  refine ⟨by decide, ?_⟩
  exact ⟨_, rfl, by decide⟩

/-- C5. Concurrency cap and release: in every state that a schedule of
`topStories` reaches from a fresh semaphore of capacity `numCPU`,
(1) the detail fetches launched and not yet finished are at most `numCPU`, the
semaphore holds at most `numCPU` units, exactly one per such fetch plus one for
a fetch the caller has acquired for and not yet launched, and every launched
fetch is in flight or finished;
(2) every launched goroutine that is not over can run to its end by itself,
whatever the other goroutines do, and in doing so takes exactly one unit out
of the semaphore, also when its request fails or it is already panicking (it
then ends panicking, its unit released);
(3) every step either is the send of the caller for a fetch it has yet to
launch (one unit in), or leaves the semaphore alone, or is the deferred
receive that ends one goroutine (one unit out);
(4) when a panic has ended the process, the panicking goroutine had run its
deferred receive before. -/
theorem inflight_le_capacity (numCPU : Nat) (topIDs : List Int)
    (detail : Int → Fetched story) (sched : List Nat) (s : State)
    (hex : exec (newHNDS numCPU) topIDs detail State.init sched = some s) :
    s.inflight ≤ numCPU ∧ s.sem ≤ numCPU ∧
      s.sem = s.inflight + pendingLaunch s.ctl ∧
      s.inflight + s.finished = s.tasks.length ∧
      (∀ (k : Nat) (t : Task), s.crashed = false → s.tasks[k]? = some t → t.pc ≠ .exited →
        ∃ s1 u,
          exec (newHNDS numCPU) topIDs detail s (List.replicate (stepsLeft t.pc) (k + 1))
            = some s1 ∧
          s1.tasks[k]? = some u ∧ u.pc = .exited ∧
          ((t.panicking = true ∨ (t.pc = .fetch ∧ ∀ stry, detail t.id ≠ .ok stry)) →
            u.panicking = true) ∧
          s1.sem + 1 = s.sem ∧ s1.inflight + 1 = s.inflight ∧
          s1.finished = s.finished + 1) ∧
      (∀ (c : Nat) (s1 : State), step (newHNDS numCPU) topIDs detail s c = some s1 →
        (s1.sem = s.sem + 1 ∧ s1.finished = s.finished ∧ s1.tasks = s.tasks ∧
          pendingLaunch s.ctl = 0 ∧ pendingLaunch s1.ctl = 1) ∨
        (s1.sem = s.sem ∧ s1.finished = s.finished) ∨
        (s1.sem + 1 = s.sem ∧ s1.finished = s.finished + 1)) ∧
      (s.crashed = true →
        ∃ (k : Nat) (t : Task), s.tasks[k]? = some t ∧ t.panicking = true ∧
          t.pc = .exited) := by
  have hinv := (exec_inv (newHNDS numCPU) topIDs detail sched State.init s
    (inv_init _ topIDs detail) hex).1
  have h1 := hinv.semAcct
  have h2 : s.sem ≤ numCPU := hinv.semCap
  refine ⟨?_, h2, h1, inflight_add_finished s, ?_, ?_, hinv.crash⟩
  · unfold State.inflight
    omega
  · intro k t hcr ht hne
    have hhold := total_set semUnits s.tasks k t { t with pc := .exited } ht
    have hsem : 0 < s.sem := by
      have hu : semUnits t.pc = 1 := by
        cases hp : t.pc <;> simp_all [semUnits]
      simp only [hu, semUnits] at hhold
      omega
    cases hpc : t.pc with
    | fetch =>
      obtain ⟨s1, u, hs1, hu, hupc, hp, hrest⟩ :=
        run_from_fetch (newHNDS numCPU) topIDs detail s k t ht hpc hcr hsem
      refine ⟨s1, u, hs1, hu, hupc, ?_, hrest⟩
      intro hor
      rcases hor with hor | hor
      · exact hp (Or.inl hor)
      · exact hp (Or.inr hor.2)
    | deferDone =>
      obtain ⟨s1, u, hs1, hu, hupc, hp, hrest⟩ :=
        run_from_deferDone (newHNDS numCPU) topIDs detail s k t ht hpc hcr hsem
      refine ⟨s1, u, hs1, hu, hupc, ?_, hrest⟩
      intro hor
      rcases hor with hor | hor
      · exact hp hor
      · exact absurd hor.1 (by simp)
    | deferRecv =>
      obtain ⟨s1, u, hs1, hu, hupc, hp, hrest⟩ :=
        run_from_deferRecv (newHNDS numCPU) topIDs detail s k t ht hpc hcr hsem
      refine ⟨s1, u, hs1, hu, hupc, ?_, hrest⟩
      intro hor
      rcases hor with hor | hor
      · exact hp hor
      · exact absurd hor.1 (by simp)
    | exited => exact absurd hpc hne
  · intro c s1 hs1
    exact trans_sem (newHNDS numCPU) topIDs detail s s1
      (step_trans (newHNDS numCPU) topIDs detail s s1 c hs1).2

/-! ## `timeago` -/

theorem wrap64_id (x : Int) (h0 : -9223372036854775808 ≤ x) (h1 : x ≤ 9223372036854775807) :
    wrap64 x = x := by
  unfold wrap64
  omega

theorem timeago_delta (now ts : Int) (hd : 0 ≤ now - ts)
    (hrep : (now - ts) * 1000000000 ≤ 9223372036854775807) :
    wrap64 (wrap64 (now - ts) * second) = (now - ts) * 1000000000 := by
  have h1 : wrap64 (now - ts) = now - ts := wrap64_id _ (by omega) (by omega)
  rw [h1]
  exact wrap64_id _ (by unfold second; omega) (by unfold second; omega)

/-- C7. Relative time from one hour up: with `d = now - ts`, `3600 ≤ d` and
`d * 10^9` within `int64`, `timeago` returns `d / 3600` followed by
" hours ago" when `d < 86400`; from `86400` on it returns "1 day ago" when
`d / 86400 = 1` and `d / 86400` followed by " days ago" when `2 ≤ d / 86400`. -/
theorem timeago_from_one_hour (now ts : Int) (hd : 3600 ≤ now - ts)
    (hrep : (now - ts) * 1000000000 ≤ 9223372036854775807) :
    (now - ts < 86400 → timeago now ts = fmtInt ((now - ts) / 3600) ++ " hours ago") ∧
    (86400 ≤ now - ts →
      ((now - ts) / 86400 = 1 → timeago now ts = "1 day ago") ∧
      (2 ≤ (now - ts) / 86400 →
        timeago now ts = fmtInt ((now - ts) / 86400) ++ " days ago")) := by
  have hdelta := timeago_delta now ts (by omega) hrep
  have hh : ((now - ts) * 1000000000).tdiv (3600 * second) = (now - ts) / 3600 := by
    rw [Int.tdiv_eq_ediv (by omega) (by unfold second; omega)]
    unfold second
    omega
  have hdd : ((now - ts) * 1000000000).tdiv (86400 * second) = (now - ts) / 86400 := by
    rw [Int.tdiv_eq_ediv (by omega) (by unfold second; omega)]
    unfold second
    omega
  constructor
  · intro hlt
    simp only [timeago, hdelta, hh]
    rw [if_neg (by unfold hour; omega), if_pos (by unfold hour; omega)]
  · intro hge
    constructor
    · intro h1
      simp only [timeago, hdelta, hdd]
      rw [if_neg (by unfold hour; omega), if_neg (by unfold hour; omega), if_pos h1]
    · intro h2
      simp only [timeago, hdelta, hdd]
      rw [if_neg (by unfold hour; omega), if_neg (by unfold hour; omega), if_neg (by omega)]

/-! ## `run` -/

theorem runLoop_ok (clock : Nat → Int) (stories : List story) :
    ∀ (idx : Nat) (items : List alfredItem), idx + stories.length ≤ items.length →
      ∃ out, runLoop clock idx stories items = .returned { Items := out } none ∧
        out.length = items.length ∧
        (∀ (j : Nat) (s : story), stories[j]? = some s →
          out[idx + j]? = some (renderItem (clock (idx + j)) s)) ∧
        (∀ (j : Nat), j < idx → out[j]? = items[j]?) := by
  induction stories with
  | nil =>
    intro idx items _
    exact ⟨items, rfl, rfl, by intro j s hj; simp at hj, fun _ _ => rfl⟩
  | cons a rest ih =>
    intro idx items hlen
    simp only [List.length_cons] at hlen
    have hlt : idx < items.length := by omega
    obtain ⟨out, hrun, hl, hmap, hkeep⟩ :=
      ih (idx + 1) (items.set idx (renderItem (clock idx) a)) (by simp; omega)
    refine ⟨out, ?_, ?_, ?_, ?_⟩
    · simp only [runLoop, hlt, if_true]
      exact hrun
    · simpa using hl
    · intro j s hj
      cases j with
      | zero =>
        simp at hj
        subst hj
        rw [Nat.add_zero, hkeep idx (by omega)]
        simp [List.getElem?_set, hlt]
      | succ j =>
        simp at hj
        have := hmap j s hj
        rw [show idx + (j + 1) = idx + 1 + j by omega]
        exact this
    · intro j hj
      rw [hkeep j (by omega)]
      have : ¬ idx = j := by omega
      simp [List.getElem?_set, this]

theorem runLoop_panic (clock : Nat → Int) (stories : List story) :
    ∀ (idx : Nat) (items : List alfredItem), idx ≤ items.length →
      items.length < idx + stories.length →
      runLoop clock idx stories items = .indexPanic items.length items.length := by
  induction stories with
  | nil =>
    intro idx items h1 h2
    simp at h2
    omega
  | cons a rest ih =>
    intro idx items h1 h2
    simp only [List.length_cons] at h2
    by_cases hlt : idx < items.length
    · simp only [runLoop, hlt, if_true]
      have := ih (idx + 1) (items.set idx (renderItem (clock idx) a)) (by simp; omega)
        (by simp; omega)
      simpa using this
    · have : idx = items.length := by omega
      simp [runLoop, this]

theorem run_ok (ds : hnDataService) (stories : List story) (clock : Nat → Int)
    (hds : ds.topStories = (stories, none)) (hlen : stories.length ≤ numStories) :
    ∃ out, hnHotFetcher.run { ds := ds } clock = .returned { Items := out } none ∧
      out.length = numStories ∧
      (∀ (j : Nat) (s : story), stories[j]? = some s →
        out[j]? = some (renderItem (clock j) s)) := by
  obtain ⟨out, hrun, hl, hmap, _⟩ :=
    runLoop_ok clock stories 0 (List.replicate numStories alfredItem.zero) (by simpa using hlen)
  refine ⟨out, ?_, by simpa using hl, ?_⟩
  · simp only [hnHotFetcher.run, hds]
    exact hrun
  · intro j s hj
    simpa using hmap j s hj

theorem run_panic (ds : hnDataService) (stories : List story) (clock : Nat → Int)
    (hds : ds.topStories = (stories, none)) (hlen : numStories < stories.length) :
    hnHotFetcher.run { ds := ds } clock = .indexPanic numStories numStories := by
  have := runLoop_panic clock stories 0 (List.replicate numStories alfredItem.zero)
    (by simp) (by simpa using hlen)
  simp only [hnHotFetcher.run, hds]
  simpa using this

theorem run_error (ds : hnDataService) (stories : List story) (err : GoError)
    (clock : Nat → Int) (hds : ds.topStories = (stories, some err)) :
    hnHotFetcher.run { ds := ds } clock
      = .returned { Items := List.replicate numStories alfredItem.zero } (some err) := by
  simp only [hnHotFetcher.run, hds]

/-- C8. Comment-count phrase: for every story `s` at index `i` of the list a
data service returned to `run` without error, item `i` of the output `run`
returns has as subtitle the score, author and relative time, then " | ", then
"1 comment" when `s.Kids` has one entry and the number of entries in decimal
followed by " comments" otherwise (a nil slice counting zero entries). -/
theorem run_comment_phrase (ds : hnDataService) (stories : List story) (clock : Nat → Int)
    (ao : alfredOutput) (hds : ds.topStories = (stories, none))
    (hrun : hnHotFetcher.run { ds := ds } clock = .returned ao none)
    (i : Nat) (s : story) (hs : stories[i]? = some s) :
    ∃ it, ao.Items[i]? = some it ∧
      it.Subtitle = (fmtInt s.Score ++ " points by " ++ s.By ++ " " ++ timeago (clock i) s.Time)
        ++ " | " ++ (if goLen s.Kids = 1 then "1 comment"
          else fmtInt (goLen s.Kids) ++ " comments") := by
  have hlen : stories.length ≤ numStories := by
    by_contra hgt
    rw [run_panic ds stories clock hds (by omega)] at hrun
    simp at hrun
  obtain ⟨out, hout, _, hmap⟩ := run_ok ds stories clock hds hlen
  rw [hout] at hrun
  simp only [RunResult.returned.injEq, and_true] at hrun
  subst hrun
  exact ⟨_, hmap i s hs, rfl⟩

/-- C9. Story-to-item mapping: for a data service whose `topStories` succeeds
with `stories`, `run` returns an output when there are at most `numStories`
stories, and in every output that `run` returns item `i` is built from story
`i` alone: its title, the subtitle "<score> points by <author> <timeago> |
<comment phrase>", its url as arg, `Valid = true`, the alt modifier with the
discussion link of its identifier and the subtitle "open comments", and no cmd
modifier. -/
theorem run_item_of_story (ds : hnDataService) (stories : List story) (clock : Nat → Int)
    (hds : ds.topStories = (stories, none)) :
    (stories.length ≤ numStories →
      ∃ ao, hnHotFetcher.run { ds := ds } clock = .returned ao none) ∧
    (∀ ao err, hnHotFetcher.run { ds := ds } clock = .returned ao err →
      err = none ∧ ∀ (i : Nat) (s : story), stories[i]? = some s →
        ao.Items[i]? = some
          { Title := s.Title,
            Subtitle := fmtInt s.Score ++ " points by " ++ s.By ++ " "
              ++ timeago (clock i) s.Time ++ " | " ++ commentsFmt s,
            Arg := s.Url,
            Valid := true,
            Mods :=
              { Alt := some
                  { Valid := true,
                    Arg := "https://news.ycombinator.com/item?id=" ++ fmtInt s.Id,
                    Subtitle := "open comments" },
                Cmd := none } }) := by
  constructor
  · intro hlen
    obtain ⟨out, hout, _, _⟩ := run_ok ds stories clock hds hlen
    exact ⟨_, hout⟩
  · intro ao err hrun
    have hlen : stories.length ≤ numStories := by
      by_contra hgt
      rw [run_panic ds stories clock hds (by omega)] at hrun
      simp at hrun
    obtain ⟨out, hout, _, hmap⟩ := run_ok ds stories clock hds hlen
    rw [hout] at hrun
    simp only [RunResult.returned.injEq] at hrun
    obtain ⟨h1, h2⟩ := hrun
    subst h1
    refine ⟨h2.symm, ?_⟩
    intro i s hs
    exact hmap i s hs


theorem zero_subtitle (x : String) :
    fmtInt story.zero.Score ++ " points by " ++ story.zero.By ++ " " ++ x ++ " | "
        ++ commentsFmt story.zero
      = "0 points by " ++ (" " ++ x ++ " ") ++ "| 0 comments" := by
  have h1 : fmtInt story.zero.Score = "0" := by decide
  have h2 : commentsFmt story.zero = "0 comments" := by decide
  have h3 : story.zero.By = "" := rfl
  have h4 : "0" ++ " points by " = "0 points by " := by decide
  have h5 : " | " ++ "0 comments" = " " ++ "| 0 comments" := by decide
  rw [h1, h2, h3, h4]
  simp only [String.append_assoc, String.append_empty, String.empty_append, h5]

theorem topStories_len (h : hndsimpl) (ranking : Fetched (List Int))
    (detail : Int → Fetched story) (sched : List Nat) (res : TSResult)
    (stories : List story) (err : Option GoError)
    (hres : h.topStories ranking detail sched = some res)
    (hout : res.outcome = .returned stories err) : stories.length = numStories := by
  cases ranking with
  | getFailed e =>
    simp only [hndsimpl.topStories, Option.some.injEq] at hres
    subst hres
    simp only [TSOutcome.returned.injEq] at hout
    rw [← hout.1]
    simp
  | readFailed e =>
    simp only [hndsimpl.topStories, Option.some.injEq] at hres
    subst hres
    simp only [TSOutcome.returned.injEq] at hout
    rw [← hout.1]
    simp
  | decodeFailed e =>
    simp only [hndsimpl.topStories, Option.some.injEq] at hres
    subst hres
    simp only [TSOutcome.returned.injEq] at hout
    rw [← hout.1]
    simp
  | ok topIDs =>
    simp only [hndsimpl.topStories] at hres
    split at hres
    · simp at hres
    · rename_i s hs
      have hinv := (exec_inv h topIDs detail sched State.init s
        (inv_init h topIDs detail) hs).1
      simp only [State.observe] at hres
      split at hres
      · simp only [Option.some.injEq] at hres
        subst hres
        simp only [TSOutcome.returned.injEq] at hout
        rw [← hout.1]
        exact hinv.storiesLen
      · split at hres
        · simp only [Option.some.injEq] at hres
          subst hres
          simp at hout
        · simp at hres

/-! ## Claims on `timeago`, `run` and `main` -/

/-- C4. Lister failure: when the ranking exchange fails at `http.Get`, at
`ioutil.ReadAll` or at `json.Unmarshal` with error `err`, `topStories` returns
the `numStories` zero stories with `err` under every schedule and has issued no
detail request; and for every data service whose `topStories` returns a
non-nil error `e`, `run` returns that same `e`, and `main` ends in a panic
without emitting output. -/
theorem ranking_failure_propagates (h : hndsimpl) (ranking : Fetched (List Int))
    (detail : Int → Fetched story) (sched : List Nat) (err : GoError)
    (hfail : ranking = .getFailed err ∨ ranking = .readFailed err
      ∨ ranking = .decodeFailed err) :
    h.topStories ranking detail sched
      = some { outcome := .returned (List.replicate numStories story.zero) (some err),
               requests := [] } ∧
    ∀ (ds : hnDataService) (stories : List story) (e : GoError) (clock : Nat → Int),
      ds.topStories = (stories, some e) →
      (∃ ao, hnHotFetcher.run { ds := ds } clock = .returned ao (some e)) ∧
      main ds clock = .panicked := by
  constructor
  · rcases hfail with hf | hf | hf <;> subst hf <;> rfl
  · intro ds stories e clock hds
    have hr := run_error ds stories e clock hds
    refine ⟨⟨_, hr⟩, ?_⟩
    simp only [main, hr]

/-- C4 at a ranking body that does not decode. -/
theorem ranking_failure_propagates_witness :
    (newHNDS 4).topStories (.decodeFailed { msg := "unexpected end of JSON input" })
        echoDetail (seqSchedule 3)
      = some { outcome := .returned (List.replicate numStories story.zero)
                 (some { msg := "unexpected end of JSON input" }),
               requests := [] } ∧
    ∀ (ds : hnDataService) (stories : List story) (e : GoError) (clock : Nat → Int),
      ds.topStories = (stories, some e) →
      (∃ ao, hnHotFetcher.run { ds := ds } clock = .returned ao (some e)) ∧
      main ds clock = .panicked :=
  ranking_failure_propagates (newHNDS 4)
    (.decodeFailed { msg := "unexpected end of JSON input" }) echoDetail (seqSchedule 3)
    { msg := "unexpected end of JSON input" } (Or.inr (Or.inr rfl))

/-- C6 (the code at a failing input). Thirty minutes after the timestamp
`timeago` returns "30000000000 minutes ago", not "30 minutes ago": on line 132
the nanosecond count `delta` is divided by 60 alone, where lines 134 and 136
divide by the unit times `int64(time.Second)`. -/
theorem timeago_thirty_minutes :
    timeago 1700001800 1700000000 = "30000000000 minutes ago" ∧
    timeago 1700001800 1700000000 ≠ "30 minutes ago" := by
  decide

/-- Below one hour the code formats the nanosecond count divided by 60. -/
theorem timeago_below_hour (now ts : Int) (h0 : 0 ≤ now - ts) (h1 : now - ts < 3600) :
    timeago now ts = fmtInt ((now - ts) * 1000000000 / 60) ++ " minutes ago" := by
  have hdelta := timeago_delta now ts h0 (by omega)
  simp only [timeago, hdelta]
  rw [if_pos (by unfold hour; omega), Int.tdiv_eq_ediv (by omega) (by omega)]

/-- C7 at 3600, 7200, 86400 and 259200 seconds after the timestamp. -/
theorem timeago_from_one_hour_witness :
    timeago 1700003600 1700000000 = "1 hours ago" ∧
    timeago 1700007200 1700000000 = "2 hours ago" ∧
    timeago 1700086400 1700000000 = "1 day ago" ∧
    timeago 1700259200 1700000000 = "3 days ago" :=
  ⟨((timeago_from_one_hour 1700003600 1700000000 (by decide) (by decide)).1
      (by decide)).trans (by decide),
    ((timeago_from_one_hour 1700007200 1700000000 (by decide) (by decide)).1
      (by decide)).trans (by decide),
    ((timeago_from_one_hour 1700086400 1700000000 (by decide) (by decide)).2
      (by decide)).1 (by decide),
    (((timeago_from_one_hour 1700259200 1700000000 (by decide) (by decide)).2
      (by decide)).2 (by decide)).trans (by decide)⟩

/-- C8 at stories with no, one and five kids. -/
theorem run_comment_phrase_witness :
    sampleService.topStories = (sampleStories, none) ∧
    hnHotFetcher.run { ds := sampleService } sampleClock = .returned sampleOutput none ∧
    (∃ it, sampleOutput.Items[0]? = some it ∧
      it.Subtitle = "5 points by ann 2 hours ago" ++ " | " ++ "0 comments") ∧
    (∃ it, sampleOutput.Items[1]? = some it ∧
      it.Subtitle = "10 points by bob 2 hours ago" ++ " | " ++ "1 comment") ∧
    (∃ it, sampleOutput.Items[2]? = some it ∧
      it.Subtitle = "1 points by cy 3 days ago" ++ " | " ++ "5 comments") := by
  have hrun : hnHotFetcher.run { ds := sampleService } sampleClock
      = .returned sampleOutput none := by decide
  refine ⟨rfl, hrun, ?_, ?_, ?_⟩
  · obtain ⟨it, h1, h2⟩ := run_comment_phrase sampleService sampleStories sampleClock
      sampleOutput rfl hrun 0 _ rfl
    exact ⟨it, h1, h2.trans (by decide)⟩
  · obtain ⟨it, h1, h2⟩ := run_comment_phrase sampleService sampleStories sampleClock
      sampleOutput rfl hrun 1 _ rfl
    exact ⟨it, h1, h2.trans (by decide)⟩
  · obtain ⟨it, h1, h2⟩ := run_comment_phrase sampleService sampleStories sampleClock
      sampleOutput rfl hrun 2 _ rfl
    exact ⟨it, h1, h2.trans (by decide)⟩

/-- C9 at the second of three sample stories. -/
theorem run_item_of_story_witness :
    sampleService.topStories = (sampleStories, none) ∧
    hnHotFetcher.run { ds := sampleService } sampleClock = .returned sampleOutput none ∧
    sampleOutput.Items[1]? = some
      { Title := "Second",
        Subtitle := "10 points by bob 2 hours ago | 1 comment",
        Arg := "https://b.example/2",
        Valid := true,
        Mods :=
          { Alt := some
              { Valid := true,
                Arg := "https://news.ycombinator.com/item?id=102",
                Subtitle := "open comments" },
            Cmd := none } } := by
  have hrun : hnHotFetcher.run { ds := sampleService } sampleClock
      = .returned sampleOutput none := by decide
  refine ⟨rfl, hrun, ?_⟩
  have h := ((run_item_of_story sampleService sampleStories sampleClock rfl).2
    sampleOutput none hrun).2 1 _ rfl
  exact h.trans (by decide)

/-- C10. Fixed-size output: (a) for a data service whose `topStories` succeeds
with at most `numStories` stories, `run` returns without error exactly
`numStories` items, and with more than `numStories` stories the write
`ao.Items[numStories]` panics with index out of range; (b) whenever
`hndsimpl.topStories` returns, it returns exactly `numStories` slots, and when
it returned them without error `run` returns `numStories` items that all have
`Valid = true`, the item of a zero-value slot `i` having an empty title, an
empty arg, a subtitle that starts "0 points by " and ends "| 0 comments", and
the discussion link of identifier 0. -/
theorem run_fixed_size :
    (∀ (ds : hnDataService) (stories : List story) (clock : Nat → Int),
      ds.topStories = (stories, none) →
      (stories.length ≤ numStories →
        ∃ items, hnHotFetcher.run { ds := ds } clock = .returned { Items := items } none ∧
          items.length = numStories) ∧
      (numStories < stories.length →
        hnHotFetcher.run { ds := ds } clock = .indexPanic numStories numStories)) ∧
    (∀ (numCPU : Nat) (ranking : Fetched (List Int)) (detail : Int → Fetched story)
      (sched : List Nat) (res : TSResult) (stories : List story) (err : Option GoError)
      (clock : Nat → Int),
      (newHNDS numCPU).topStories ranking detail sched = some res →
      res.outcome = .returned stories err →
      stories.length = numStories ∧
      (err = none →
        ∃ items,
          hnHotFetcher.run { ds := { topStories := (stories, none) } } clock
            = .returned { Items := items } none ∧
          items.length = numStories ∧
          (∀ it, it ∈ items → it.Valid = true) ∧
          ∀ (i : Nat), stories[i]? = some story.zero →
            items[i]? = some
              { Title := "",
                Subtitle := "0 points by " ++ (" " ++ timeago (clock i) 0 ++ " ")
                  ++ "| 0 comments",
                Arg := "",
                Valid := true,
                Mods :=
                  { Alt := some
                      { Valid := true,
                        Arg := "https://news.ycombinator.com/item?id=0",
                        Subtitle := "open comments" },
                    Cmd := none } })) := by
  constructor
  · intro ds stories clock hds
    constructor
    · intro hlen
      obtain ⟨out, hout, hl, _⟩ := run_ok ds stories clock hds hlen
      exact ⟨out, hout, hl⟩
    · intro hlen
      exact run_panic ds stories clock hds hlen
  · intro numCPU ranking detail sched res stories err clock hres hout
    have hlen := topStories_len (newHNDS numCPU) ranking detail sched res stories err hres hout
    refine ⟨hlen, ?_⟩
    intro _
    obtain ⟨out, hrun, hl, hmap⟩ :=
      run_ok { topStories := (stories, none) } stories clock rfl (by omega)
    refine ⟨out, hrun, hl, ?_, ?_⟩
    · intro it hit
      obtain ⟨j, hj, hget⟩ := List.getElem_of_mem hit
      have hjs : j < stories.length := by omega
      have h1 := hmap j stories[j] (List.getElem?_eq_getElem hjs)
      rw [List.getElem?_eq_getElem hj, hget] at h1
      simp only [Option.some.injEq] at h1
      rw [h1]
      rfl
    · intro i hi
      rw [hmap i story.zero hi]
      simp only [renderItem, zero_subtitle]
      rfl

/-- C10 at a list of three stories and at a list of `numStories + 1` stories. -/
theorem run_fixed_size_witness :
    (∃ items, hnHotFetcher.run { ds := sampleService } sampleClock
        = .returned { Items := items } none ∧ items.length = numStories) ∧
    hnHotFetcher.run
        { ds := { topStories := (List.replicate (numStories + 1) story.zero, none) } }
        sampleClock
      = .indexPanic numStories numStories :=
  ⟨(run_fixed_size.1 sampleService sampleStories sampleClock rfl).1 (by decide),
    (run_fixed_size.1 { topStories := (List.replicate (numStories + 1) story.zero, none) }
      (List.replicate (numStories + 1) story.zero) sampleClock rfl).2 (by decide)⟩

/-- C1 at the ranking 101..140 with capacity 2, rank 1 finishing before rank 0. -/
theorem topStories_preserves_rank_order_witness :
    0 < 2 ∧ numStories ≤ sampleIDs.length ∧
    (∀ (r : Nat) (id : Int), r < numStories → sampleIDs[r]? = some id →
      ∃ stry, echoDetail id = .ok stry ∧ stry.Id = id) ∧
    ∃ res, (newHNDS 2).topStories (.ok sampleIDs) echoDetail swapScheduleFull = some res ∧
      ∃ stories, res.outcome = .returned stories none ∧ stories.length = numStories ∧
        ∀ (r : Nat), r < numStories → (stories[r]?).map story.Id = sampleIDs[r]? := by
  have hdet : ∀ (r : Nat) (id : Int), r < numStories → sampleIDs[r]? = some id →
      ∃ stry, echoDetail id = .ok stry ∧ stry.Id = id :=
    fun _ id _ _ => ⟨{ story.zero with Id := id }, rfl, rfl⟩
  have hsome :
      ((newHNDS 2).topStories (.ok sampleIDs) echoDetail swapScheduleFull).isSome = true := by
    decide
  obtain ⟨res, hres⟩ := Option.isSome_iff_exists.mp hsome
  exact ⟨by decide, by decide, hdet, res, hres,
    (topStories_preserves_rank_order 2 (by decide) sampleIDs (by decide) echoDetail hdet
      swapScheduleFull).2 res hres⟩

/-- C2 at the ranking 101, 102, 103 with capacity 2, rank 1 finishing before
rank 0. -/
theorem topStories_short_ranking_witness :
    0 < 2 ∧ [(101 : Int), 102, 103].length < numStories ∧
    (∀ (r : Nat) (id : Int), [(101 : Int), 102, 103][r]? = some id →
      ∃ stry, echoDetail id = .ok stry) ∧
    ∃ res, (newHNDS 2).topStories (.ok [101, 102, 103]) echoDetail swapSchedule = some res ∧
      ∃ stories, res.outcome = .returned stories none ∧ stories.length = numStories ∧
        res.requests.Perm [(101 : Int), 102, 103].enum ∧
        (∀ (r : Nat) (id : Int), [(101 : Int), 102, 103][r]? = some id →
          ∃ stry, echoDetail id = .ok stry ∧ stories[r]? = some stry) ∧
        (∀ (r : Nat), [(101 : Int), 102, 103].length ≤ r → r < numStories →
          stories[r]? = some story.zero) := by
  have hdet : ∀ (r : Nat) (id : Int), [(101 : Int), 102, 103][r]? = some id →
      ∃ stry, echoDetail id = .ok stry :=
    fun _ id _ => ⟨{ story.zero with Id := id }, rfl⟩
  have hsome :
      ((newHNDS 2).topStories (.ok [101, 102, 103]) echoDetail swapSchedule).isSome
        = true := by
    decide
  obtain ⟨res, hres⟩ := Option.isSome_iff_exists.mp hsome
  exact ⟨by decide, by decide, hdet, res, hres,
    (topStories_short_ranking 2 (by decide) [101, 102, 103] (by decide) echoDetail hdet
      swapSchedule).2 res hres⟩

/-- C5 at the state in which the fetch of rank 0 has failed and panics, with
its deferred receive next, while rank 1 is in flight: two units are held, and
the panicking goroutine, run to its end, takes its unit out. -/
theorem inflight_le_capacity_witness :
    exec (newHNDS 2) [7, 8, 9] failingDetail State.init failSchedule = some failState ∧
    failState.sem = 2 ∧ failState.inflight = 2 ∧ failState.finished = 0 ∧
    failState.tasks[0]? = some { idx := 0, id := 7, pc := .deferRecv, panicking := true } ∧
    ∃ s1 u, exec (newHNDS 2) [7, 8, 9] failingDetail failState [1] = some s1 ∧
      s1.tasks[0]? = some u ∧ u.pc = .exited ∧ u.panicking = true ∧
      s1.sem = 1 ∧ s1.inflight = 1 ∧ s1.finished = 1 := by
  have hex : exec (newHNDS 2) [7, 8, 9] failingDetail State.init failSchedule
      = some failState := by decide
  have hsem : failState.sem = 2 := by decide
  have hin : failState.inflight = 2 := by decide
  have hfin : failState.finished = 0 := by decide
  have ht : failState.tasks[0]?
      = some { idx := 0, id := 7, pc := .deferRecv, panicking := true } := by decide
  obtain ⟨s1, u, hs1, hu, hupc, hp, h1, h2, h3⟩ :=
    (inflight_le_capacity 2 [7, 8, 9] failingDetail failSchedule failState hex).2.2.2.2.1
      0 _ (by decide) ht (by decide)
  exact ⟨hex, hsem, hin, hfin, ht, s1, u, hs1, hu, hupc, hp (Or.inl rfl),
    by omega, by omega, by omega⟩

end HnTop
